import Mathlib

/-!
Verification development for `dmrub/rdfparse` (Redland C++ wrapper).

Shallow embedding of

* `add_reachable_blank_nodes` / `get_reachable_statements` (`src/redland.hpp`),
* the byte-iostream callbacks `std_iostream_write_byte`, `std_iostream_write_bytes`,
  `std_iostream_read_bytes`, `std_iostream_read_eof` (`src/redland.cpp`),
* `CObjWrapper` and the constructors, assignments and destructors of the handle classes,
  `Node::operator==` and `Node::to_string` (`src/redland.hpp`),
* `Stream::copy_n`, `Stream::copy`, `Stream::create_from` and `Stream::StreamContext`,
  `Namespaces::expand`, `parse_rdf`, `parse_rdf_from_string`, `serialize_rdf` and
  `Model::remove_all_statements` (`src/redland.hpp`).

The engine (librdf) and the C++ stream classes are external to the repository.  They are
modelled by the smallest state that the wrapped code can observe: a store is the list of its
statements in enumeration order, a byte channel is a byte list together with the three
`std::ios` status bits and the exception mask.
-/

namespace Redland

/-! ## Data model -/

/-- A node handle as seen through `Redland::Node`: a resource, a literal, a blank node, or the
empty wrapper (`c_obj_ == 0`). -/
inductive Node where
  | resource (uri : String)
  | literal (value : String) (language : Option String) (datatype : Option String)
  | blank (identifier : String)
  | empty
  deriving DecidableEq, Repr

namespace Node

/-- `CObjWrapper::is_valid`: the wrapper holds a handle. -/
def is_valid : Node → Bool
  | empty => false
  | _ => true

/-- `Node::is_blank` (`librdf_node_is_blank`, which answers 0 for a null handle). -/
def is_blank : Node → Bool
  | blank _ => true
  | _ => false

/-- `Node::is_literal` (`librdf_node_is_literal`, which answers 0 for a null handle). -/
def is_literal : Node → Bool
  | literal _ _ _ => true
  | _ => false

/-- `Node::get_uri_as_string`: the URI, or `""` when the engine reports no URI. -/
def get_uri_as_string : Node → String
  | resource u => u
  | _ => ""

/-- `Node::get_literal_value`: the lexical value, or `""` when the engine reports none. -/
def get_literal_value : Node → String
  | literal v _ _ => v
  | _ => ""

/-- `Node::get_blank_identifier`: the identifier, or `""` when the engine reports none. -/
def get_blank_identifier : Node → String
  | blank i => i
  | _ => ""

end Node

/-- A statement handle: subject, predicate, object. An empty node in a query pattern is a
wildcard. -/
structure Statement where
  subject : Node
  predicate : Node
  object : Node
  deriving DecidableEq, Repr

/-- The store behind a `Redland::Model`: its statements in the store's enumeration order. -/
abbrev Model := List Statement

/-- One position of `librdf_statement_match`: an absent pattern node matches everything, a
present one matches an equal node. -/
def node_match (pattern n : Node) : Bool :=
  !pattern.is_valid || decide (n = pattern)

/-- The engine's partial-statement match used by `librdf_model_find_statements`. -/
def statement_match (pattern s : Statement) : Bool :=
  node_match pattern.subject s.subject &&
  node_match pattern.predicate s.predicate &&
  node_match pattern.object s.object

/-- `Model::find_statements(statement)`: copies of all matching statements, in enumeration
order. -/
def find_statements (model : Model) (pattern : Statement) : List Statement :=
  model.filter (statement_match pattern)

/-! ## Reachable-subgraph extraction -/

/-- The visited key `nid` computed at the top of `add_reachable_blank_nodes`. -/
def node_id (node : Node) : String :=
  if node.is_blank then "b:" ++ node.get_blank_identifier
  else if node.is_literal then "l:" ++ node.get_literal_value
  else "u:" ++ node.get_uri_as_string

/-- The mutable state threaded through the traversal: the `added_names` set and the
statements written so far through the output iterator `first`. -/
structure Walk where
  added_names : List String
  out : List Statement
  deriving DecidableEq, Repr

/-- The `for` loop of `add_reachable_blank_nodes` over the query result; `visit` is the
recursive call. Each statement is written to the output, then its object is expanded when it
is a blank node. -/
def visit_statements (visit : Node → Walk → Option Walk) : List Statement → Walk → Option Walk
  | [], w => some w
  | s :: rest, w =>
    let w1 : Walk := { w with out := w.out ++ [s] }
    if s.object.is_blank then
      match visit s.object w1 with
      | none => none
      | some w2 => visit_statements visit rest w2
    else visit_statements visit rest w1

/-- `add_reachable_blank_nodes(first, node, added_names, model)`. The first argument bounds
the recursion depth; `none` means the bound was hit. -/
def add_reachable_blank_nodes (model : Model) : Nat → Node → Walk → Option Walk
  | 0, _, _ => none
  | fuel + 1, node, w =>
    let nid := node_id node
    if nid ∈ w.added_names then some w
    else
      visit_statements (add_reachable_blank_nodes model fuel)
        (find_statements model ⟨node, Node.empty, Node.empty⟩)
        { w with added_names := nid :: w.added_names }

/-- `get_reachable_statements(node, model)`: the traversal started with an empty result
container and an empty `added_names`. The depth bound `model.length + 2` is never hit. -/
def get_reachable_statements (node : Node) (model : Model) : Option (List Statement) :=
  (add_reachable_blank_nodes model (model.length + 2) node ⟨[], []⟩).map Walk.out

/-! ### Fixtures -/

/-- Predicate `p` of the fixtures. -/
def fx_p : Node := Node.resource "p"

/-- Blank node `A`. -/
def fx_A : Node := Node.blank "A"

/-- Blank node `B`. -/
def fx_B : Node := Node.blank "B"

/-- The 2-cycle store `{A p B, B p A}`. -/
def fx_cycle : Model := [⟨fx_A, fx_p, fx_B⟩, ⟨fx_B, fx_p, fx_A⟩]

/-- Reachability used by the extractor: the anchor itself, and every blank node that is the
object of a store statement whose subject is already reachable. -/
inductive Reach (model : Model) (anchor : Node) : Node → Prop where
  | anchor : Reach model anchor anchor
  | step {x : Node} {s : Statement} : Reach model anchor x → s ∈ model → s.subject = x →
      s.object.is_blank = true → Reach model anchor s.object

/-- The keys that can ever enter `added_names` when the traversal starts at `anchor`: the
anchor's key and the keys of the objects stored in `model`. -/
def key_universe (model : Model) (anchor : Node) : List String :=
  node_id anchor :: model.map (fun s => node_id s.object)

/-- The number of keys of the universe that are not yet in `added`. -/
def unvisited (model : Model) (anchor : Node) (added : List String) : Nat :=
  ((key_universe model anchor).toFinset \ added.toFinset).card

/-- Specification of the loop body order, in the words of the design: each statement of the
current node is emitted, immediately followed by the complete expansion of its object when
that object is a blank node, and only then by the next statement. `expand` yields the new
visited set and the expansion. -/
def expand_statements (expand : Node → List String → Option (List String × List Statement)) :
    List Statement → List String → Option (List String × List Statement)
  | [], added => some (added, [])
  | s :: rest, added =>
    if s.object.is_blank then
      match expand s.object added with
      | none => none
      | some (added1, e) =>
        match expand_statements expand rest added1 with
        | none => none
        | some (added2, r) => some (added2, s :: (e ++ r))
    else
      match expand_statements expand rest added with
      | none => none
      | some (added2, r) => some (added2, s :: r)

/-- Specification of the depth-first pre-order expansion of a node: nothing for a node whose
key is already visited; otherwise the key is inserted and the statements of the node are laid
out by `expand_statements` in the store's enumeration order. -/
def preorder_expansion (model : Model) :
    Nat → Node → List String → Option (List String × List Statement)
  | 0, _, _ => none
  | fuel + 1, node, added =>
    if node_id node ∈ added then some (added, [])
    else
      expand_statements (preorder_expansion model fuel)
        (find_statements model ⟨node, Node.empty, Node.empty⟩) (node_id node :: added)

/-- The walk obtained from walk `w` by an expansion result `r`. -/
def Walk.extend (w : Walk) (r : List String × List Statement) : Walk :=
  ⟨r.1, w.out ++ r.2⟩

/-- A chain store `u p B, B p x` with `B` blank. -/
def fx_chain : Model :=
  [⟨Node.resource "u", fx_p, fx_B⟩, ⟨fx_B, fx_p, Node.resource "x"⟩]

/-- Key `k` entered `added_names` between walk `w` and walk `w2`. -/
def Fresh (w w2 : Walk) (k : String) : Prop :=
  k ∈ w2.added_names ∧ k ∉ w.added_names

/-- What one call of `add_reachable_blank_nodes` on `n` does to the walk: it appends `seg` to
the output; `seg` holds store statements whose subjects were first visited by this call, and
every node first visited by this call has all of its statements in `seg` and all of its blank
objects visited. -/
structure Run (model : Model) (n : Node) (w w2 : Walk) (seg : List Statement) : Prop where
  out_eq : w2.out = w.out ++ seg
  mono : w.added_names ⊆ w2.added_names
  visited : node_id n ∈ w2.added_names
  sound : ∀ s ∈ seg, s ∈ model ∧ Fresh w w2 (node_id s.subject) ∧
    (s.subject = n ∨ s.subject.is_blank = true) ∧ Reach model n s.subject
  nodup : model.Nodup → seg.Nodup
  order : node_id n ∉ w.added_names →
    seg.filter (fun t => decide (t.subject = n)) = model.filter (fun t => decide (t.subject = n))
  closed : ∀ x, (x = n ∨ x.is_blank = true) → Fresh w w2 (node_id x) →
    ∀ s ∈ model, s.subject = x →
      s ∈ seg ∧ (s.object.is_blank = true → node_id s.object ∈ w2.added_names)

/-- What the loop over the statements `l` of node `n` does to the walk. -/
structure Loop (model : Model) (n : Node) (l : List Statement) (w w2 : Walk)
    (seg : List Statement) : Prop where
  out_eq : w2.out = w.out ++ seg
  mono : w.added_names ⊆ w2.added_names
  sound : ∀ s ∈ seg, s ∈ model ∧ Reach model n s.subject ∧
    (s ∈ l ∨ (Fresh w w2 (node_id s.subject) ∧ s.subject.is_blank = true))
  emitted : ∀ s ∈ l, s ∈ seg ∧ (s.object.is_blank = true → node_id s.object ∈ w2.added_names)
  nodup : model.Nodup → l.Nodup → seg.Nodup
  order : seg.filter (fun t => decide (t.subject = n)) = l
  closed : ∀ x, x.is_blank = true → Fresh w w2 (node_id x) →
    ∀ s ∈ model, s.subject = x →
      s ∈ seg ∧ (s.object.is_blank = true → node_id s.object ∈ w2.added_names)

/-! ## Byte-iostream callbacks (`redland.cpp`)

`size_t` is 64 bits wide, `int` 32 bits wide and `std::streamsize` 64 bits wide and signed.
A channel fault is a raised `std::ios_base::failure`: `setstate` raises it when a status bit
that is set is also in the exception mask of the stream. The callbacks catch this exception
only; an exception of the stream buffer that the stream throws again leaves them. -/

/-- The status bits of a `std::ios` object and its exception mask (`exceptions()`). -/
structure IosState where
  eofbit : Bool
  failbit : Bool
  badbit : Bool
  exc_eof : Bool
  exc_fail : Bool
  exc_bad : Bool
  deriving DecidableEq, Repr

namespace IosState

/-- A freshly opened stream: no status bit set, no exception enabled. -/
def fresh : IosState := ⟨false, false, false, false, false, false⟩

/-- `std::ios::good()`. -/
def good (s : IosState) : Bool := !s.eofbit && !s.failbit && !s.badbit

/-- `std::ios::fail()`: `failbit` or `badbit` is set. -/
def fail (s : IosState) : Bool := s.failbit || s.badbit

/-- `std::ios::eof()`. -/
def eof (s : IosState) : Bool := s.eofbit

/-- The status after `setstate` with the given bits. -/
def setstate (s : IosState) (e f b : Bool) : IosState :=
  { s with eofbit := s.eofbit || e, failbit := s.failbit || f, badbit := s.badbit || b }

/-- Whether `clear`/`setstate` raises `std::ios_base::failure` on reaching status `s`. -/
def raises (s : IosState) : Bool :=
  (s.eofbit && s.exc_eof) || (s.failbit && s.exc_fail) || (s.badbit && s.exc_bad)

end IosState

/-- An input channel (`std::istream`): the bytes not yet consumed and the status. -/
structure IStream where
  data : List Nat
  ios : IosState
  deriving DecidableEq, Repr

/-- An output channel (`std::ostream`): the bytes accepted so far, the number of bytes the
sink still accepts, and the status. -/
structure OStream where
  out : List Nat
  room : Nat
  ios : IosState
  deriving DecidableEq, Repr

/-- `static_cast<int>` of a `size_t` value. -/
def to_int (c : Nat) : Int :=
  if c % 2 ^ 32 < 2 ^ 31 then (c % 2 ^ 32 : Nat) else (c % 2 ^ 32 : Nat) - 2 ^ 32

/-- The outcome of `std::istream::read`. -/
structure ReadStep where
  stream : IStream
  bytes : List Nat
  raised : Bool
  deriving DecidableEq, Repr

/-- `stream->read(p, n)`, where the `size_t` value `n` reaches `read` as a signed
`std::streamsize`. A stream that is not good only gets `failbit`. On a good stream `n` bytes
are extracted when that many remain. When fewer remain, `eofbit` and `failbit` are set: after
all remaining bytes have been extracted if `n` is below 2^63, and with nothing extracted if
`n` is 2^63 or more, which is a negative count for `read`. The bytes of a channel are counted
by a `std::streamsize`, so fewer than 2^63 remain and a count of 2^63 or more is always in the
second case. -/
def istream_read (st : IStream) (n : Nat) : ReadStep :=
  if st.ios.good then
    if n ≤ st.data.length then ⟨⟨st.data.drop n, st.ios⟩, st.data.take n, false⟩
    else
      let ios := st.ios.setstate true true false
      if n < 2 ^ 63 then ⟨⟨[], ios⟩, st.data, ios.raises⟩
      else ⟨⟨st.data, ios⟩, [], ios.raises⟩
  else
    let ios := st.ios.setstate false true false
    ⟨⟨st.data, ios⟩, [], ios.raises⟩

/-- Storing `bytes` at offset `off` of the destination buffer. -/
def write_at (buf : List Nat) (off : Nat) (bytes : List Nat) : List Nat :=
  buf.take off ++ bytes ++ buf.drop (off + bytes.length)

/-- The outcome of a read callback: the returned `int`, the channel and the destination
buffer afterwards, and whether a fault was raised (and caught) during the call. -/
structure ReadResult where
  ret : Int
  stream : IStream
  buffer : List Nat
  raised : Bool
  deriving DecidableEq, Repr

/-- The `while (count < nmemb)` loop of `std_iostream_read_bytes`; `todo` is `nmemb - count`.
A raised fault leaves through the `catch` clause with -1. -/
def read_loop (size : Nat) : Nat → Nat → IStream → List Nat → ReadResult
  | 0, count, st, buf => ⟨to_int count, st, buf, false⟩
  | todo + 1, count, st, buf =>
    let r := istream_read st size
    let buf1 := write_at buf (count * size) r.bytes
    if r.raised then ⟨-1, r.stream, buf1, true⟩
    else if r.stream.ios.fail then ⟨to_int count, r.stream, buf1, false⟩
    else read_loop size todo (count + 1) r.stream buf1

/-- `std_iostream_read_bytes(user_data, data, size, nmemb)`. -/
def std_iostream_read_bytes (st : IStream) (buf : List Nat) (size nmemb : Nat) : ReadResult :=
  if st.ios.eof then ⟨0, st, buf, false⟩
  else read_loop size nmemb 0 st buf

/-- `std_iostream_read_eof(user_data)`; `eof()` raises nothing. -/
def std_iostream_read_eof (st : IStream) : Int :=
  if st.ios.eof then 1 else 0

/-- The outcome of a write callback: the returned `int`, the channel afterwards, and whether
a fault was raised (and caught) during the call. -/
structure WriteResult where
  ret : Int
  stream : OStream
  raised : Bool
  deriving DecidableEq, Repr

/-- How a call of `put` or `write` ends: it returns, `setstate` raises
`std::ios_base::failure`, or an exception thrown by the stream buffer is thrown again by the
stream. -/
inductive WriteEnd where
  | normal
  | failure
  | foreign
  deriving DecidableEq, Repr

/-- `stream->write(p, n)` (and `put` for `n = 1`). The sentry of a stream that is not good
writes nothing, and sets `failbit` when `badbit` is set. On a good stream the sink takes the
bytes, or as many as it still accepts, and `badbit` is set then: by `setstate`, which may
raise `failure`, when the stream buffer refuses the bytes; without `failure`, when the stream
buffer is `throwing` and signals the full sink by an exception of its own, which the stream
throws again if `badbit` is in the exception mask. -/
def ostream_write_with (throwing : Bool) (st : OStream) (bytes : List Nat) :
    OStream × WriteEnd :=
  if st.ios.good then
    if bytes.length ≤ st.room then
      (⟨st.out ++ bytes, st.room - bytes.length, st.ios⟩, WriteEnd.normal)
    else
      let ios := st.ios.setstate false false true
      if throwing then
        (⟨st.out ++ bytes.take st.room, 0, ios⟩,
          if ios.exc_bad then WriteEnd.foreign else WriteEnd.normal)
      else
        (⟨st.out ++ bytes.take st.room, 0, ios⟩,
          if ios.raises then WriteEnd.failure else WriteEnd.normal)
  else if st.ios.badbit then
    let ios := st.ios.setstate false true false
    (⟨st.out, st.room, ios⟩, if ios.raises then WriteEnd.failure else WriteEnd.normal)
  else (st, WriteEnd.normal)

/-- `stream->write(p, n)` over a stream buffer that refuses what the sink cannot take: the
stream afterwards and whether `setstate` raised `failure`. -/
def ostream_write (st : OStream) (bytes : List Nat) : OStream × Bool :=
  let r := ostream_write_with false st bytes
  (r.1, decide (r.2 = WriteEnd.failure))

/-- `static_cast<char>(byte)`, as the byte value that reaches the sink. -/
def to_char (byte : Int) : Nat := (byte % 256).toNat

/-- `std_iostream_write_byte(user_data, byte)`. -/
def std_iostream_write_byte (st : OStream) (byte : Int) : WriteResult :=
  let r := ostream_write st [to_char byte]
  if r.2 then ⟨0, r.1, true⟩ else ⟨1, r.1, false⟩

/-- The `try` block of `std_iostream_write_bytes` once `byte_count` is computed: one bulk
`write`, then the byte count converted to `int`; a raised fault leaves through the `catch`
clause with 0. -/
def write_block (st : OStream) (data : List Nat) (byte_count : Nat) : WriteResult :=
  let r := ostream_write st (data.take byte_count)
  if r.2 then ⟨0, r.1, true⟩ else ⟨to_int byte_count, r.1, false⟩

/-- `std_iostream_write_bytes(user_data, data, size, nmemb)`; `data` holds at least
`nmemb * size` bytes, and `byte_count = nmemb * size` is computed in `size_t`. -/
def std_iostream_write_bytes (st : OStream) (data : List Nat) (size nmemb : Nat) :
    WriteResult :=
  write_block st data ((nmemb * size) % 2 ^ 64)

/-- The outcome of a write callback over any stream buffer: the callback returns, or an
exception that is not a `std::ios_base::failure` leaves it. -/
inductive WriteOutcome where
  | returned (r : WriteResult)
  | escaped (stream : OStream)
  deriving DecidableEq, Repr

/-- The `try` / `catch (const std::ios_base::failure&)` frame of the write callbacks around
one `put` or `write` that ended as `r`; `ok` is the value returned on success. -/
def write_frame (ok : Int) (r : OStream × WriteEnd) : WriteOutcome :=
  match r.2 with
  | WriteEnd.normal => WriteOutcome.returned ⟨ok, r.1, false⟩
  | WriteEnd.failure => WriteOutcome.returned ⟨0, r.1, true⟩
  | WriteEnd.foreign => WriteOutcome.escaped r.1

/-- `std_iostream_write_byte` over a stream buffer that is `throwing` or not. -/
def std_iostream_write_byte_with (throwing : Bool) (st : OStream) (byte : Int) :
    WriteOutcome :=
  write_frame 1 (ostream_write_with throwing st [to_char byte])

/-- `std_iostream_write_bytes` over a stream buffer that is `throwing` or not. -/
def std_iostream_write_bytes_with (throwing : Bool) (st : OStream) (data : List Nat)
    (size nmemb : Nat) : WriteOutcome :=
  write_frame (to_int ((nmemb * size) % 2 ^ 64))
    (ostream_write_with throwing st (data.take ((nmemb * size) % 2 ^ 64)))

/-- An output channel whose sink accepts no further byte and whose exception mask holds
`badbit`. -/
def fx_full_masked : OStream := ⟨[], 0, ⟨false, false, false, false, false, true⟩⟩

/-- An input channel exposing ten bytes, then end-of-input. -/
def fx_ten : IStream := ⟨[0, 1, 2, 3, 4, 5, 6, 7, 8, 9], IosState.fresh⟩

/-- An input channel on which an earlier read has run past the last byte. -/
def fx_eof : IStream := ⟨[], ⟨true, true, false, false, false, false⟩⟩

/-- An input channel with one byte left. -/
def fx_one : IStream := ⟨[7], IosState.fresh⟩

/-- An output channel whose sink accepts no further byte and that raises no exceptions. -/
def fx_full : OStream := ⟨[], 0, IosState.fresh⟩

/-- An output channel with room for sixteen bytes. -/
def fx_sink : OStream := ⟨[], 16, IosState.fresh⟩

/-! ## Ownership wrappers (`CObjWrapper` and the handle classes of `redland.hpp`)

Wrapper objects live in a heap and are named by their position, so that `this` and `other`
may be the same object. The engine is instrumented: it numbers the handles it hands out and
records every non-null handle passed to a free primitive. -/

/-- An engine handle (a non-null pointer). -/
abbrev Handle := Nat

/-- `CObjWrapper<T>`: the held pointer `c_obj_`, `none` for null. -/
structure CObjWrapper where
  c_obj_ : Option Handle
  deriving DecidableEq, Repr

namespace CObjWrapper

/-- `CObjWrapper::c_obj`. -/
def c_obj (w : CObjWrapper) : Option Handle := w.c_obj_

/-- `CObjWrapper::is_valid`: `c_obj_ != 0`. -/
def is_valid (w : CObjWrapper) : Bool := w.c_obj_.isSome

/-- `CObjWrapper::release`: the returned pointer and the wrapper afterwards. -/
def release (w : CObjWrapper) : Option Handle × CObjWrapper := (w.c_obj_, ⟨none⟩)

end CObjWrapper

/-- The handle classes derived from `CObjWrapper`. -/
inductive HandleClass where
  | World | Uri | Storage | Node | Statement | Iterator | Stream | Model
  deriving DecidableEq, Repr

namespace HandleClass

/-- Whether `operator=(T&&)` of the class frees the held handle before taking the other one:
every class does, except `Redland::World`. -/
def frees_on_move_assign : HandleClass → Bool
  | World => false
  | _ => true

/-- The copy assignment of the class: `none` when deleted, `some true` when the source is
cloned only if `other.is_valid()`, `some false` when `other.c_obj()` is cloned as it is. -/
def copy_assign_guarded : HandleClass → Option Bool
  | Node => some true
  | Statement => some true
  | Model => some true
  | Uri => some false
  | Storage => some false
  | _ => none

/-- The copy constructor of the class, as `copy_assign_guarded`; `Model` has none. -/
def copy_ctor_guarded : HandleClass → Option Bool
  | Node => some true
  | Statement => some true
  | Uri => some false
  | Storage => some false
  | _ => none

end HandleClass

/-- The instrumented engine together with the live wrapper objects: `next` is the number of
handles handed out so far (and the next handle), `frees` the handles freed so far, `objs` the
live wrappers. -/
structure Heap where
  next : Nat
  frees : List Handle
  objs : List CObjWrapper
  deriving DecidableEq, Repr

namespace Heap

/-- No handle allocated, no object alive. -/
def init : Heap := ⟨0, [], []⟩

/-- The wrapper at position `i`. -/
def obj (st : Heap) (i : Nat) : CObjWrapper := (st.objs[i]?).getD ⟨none⟩

/-- Overwriting the wrapper at position `i`. -/
def put (st : Heap) (i : Nat) (w : CObjWrapper) : Heap := { st with objs := st.objs.set i w }

/-- A newly constructed wrapper. -/
def push (st : Heap) (w : CObjWrapper) : Heap := { st with objs := st.objs ++ [w] }

/-- An allocating engine primitive (`librdf_new_*`); `ok = false` is the engine returning no
handle. -/
def new_handle (st : Heap) (ok : Bool) : Option Handle × Heap :=
  if ok then (some st.next, { st with next := st.next + 1 }) else (none, st)

/-- A clone primitive (`librdf_new_*_from_*`): null for a null source. -/
def clone (st : Heap) (src : Option Handle) (ok : Bool) : Option Handle × Heap :=
  match src with
  | none => (none, st)
  | some _ => st.new_handle ok

/-- A free primitive (`librdf_free_*`): a no-op on null. -/
def free (st : Heap) (p : Option Handle) : Heap :=
  match p with
  | none => st
  | some h => { st with frees := h :: st.frees }

/-- `release()` called on the wrapper at position `i`. -/
def release (st : Heap) (i : Nat) : Option Handle × Heap :=
  let r := (st.obj i).release
  (r.1, st.put i r.2)

end Heap

/-- The result of an operation that may raise `AllocException`: the heap afterwards and the
message of the exception, if one was raised. -/
structure Outcome where
  heap : Heap
  thrown : Option String
  deriving DecidableEq, Repr

/-- `CObjWrapper::operator=(CObjWrapper && other)`: `c_obj_ = other.release()`. -/
def CObjWrapper.move_assign (st : Heap) (this other : Nat) : Heap :=
  let r := st.release other
  r.2.put this ⟨r.1⟩

/-- `T(T && other)`: the new object is built from `other.release()`. -/
def move_ctor (st : Heap) (other : Nat) : Heap :=
  let r := st.release other
  r.2.push ⟨r.1⟩

/-- `T::operator=(T && other)`: free the held handle and null it (all classes but `World`),
then the base assignment. -/
def move_assign (c : HandleClass) (st : Heap) (this other : Nat) : Heap :=
  let st1 := if c.frees_on_move_assign then (st.free (st.obj this).c_obj_).put this ⟨none⟩ else st
  CObjWrapper.move_assign st1 this other

/-- The handle a copy takes from `other`: a clone, guarded by `other.is_valid()` or not. -/
def copy_source (guarded : Bool) (st : Heap) (other : Nat) (ok : Bool) : Option Handle × Heap :=
  if guarded then
    if (st.obj other).is_valid then st.clone (st.obj other).c_obj ok else (none, st)
  else st.clone (st.obj other).c_obj ok

/-- `T::operator=(const T & other)`: unless `this == &other`, free the held handle and store
the clone. Nothing is raised. `none` for a class whose copy assignment is deleted. -/
def copy_assign (c : HandleClass) (st : Heap) (this other : Nat) (ok : Bool) : Option Outcome :=
  match c.copy_assign_guarded with
  | none => none
  | some g =>
    if this ≠ other then
      let st1 := st.free (st.obj this).c_obj_
      let r := copy_source g st1 other ok
      some ⟨r.2.put this ⟨r.1⟩, none⟩
    else some ⟨st, none⟩

/-- `T(const T & other)`: the clone, with `AllocException` when no handle came back (for the
guarded classes only when `other` is valid). `none` for a class without copy constructor. -/
def copy_ctor (c : HandleClass) (st : Heap) (other : Nat) (ok : Bool) : Option Outcome :=
  match c.copy_ctor_guarded with
  | none => none
  | some g =>
    let r := copy_source g st other ok
    if (if g then (st.obj other).is_valid && r.1.isNone else r.1.isNone) then
      some ⟨r.2, some "AllocException"⟩
    else some ⟨r.2.push ⟨r.1⟩, none⟩

/-- A constructor that allocates and tests the result: `if (!c_obj_) throw AllocException`. -/
def ctor_checked (st : Heap) (ok : Bool) (what : String) : Outcome :=
  let r := st.new_handle ok
  if r.1.isNone then ⟨r.2, some what⟩ else ⟨r.2.push ⟨r.1⟩, none⟩

/-- A constructor that allocates and has an empty body. -/
def ctor_unchecked (st : Heap) (ok : Bool) : Outcome :=
  let r := st.new_handle ok
  ⟨r.2.push ⟨r.1⟩, none⟩

/-- The default constructor `T() : CObjWrapper(0)`. -/
def ctor_empty (st : Heap) : Heap := st.push ⟨none⟩

/-- The destructor `~T()`: free the held handle; the object is gone afterwards. -/
def dtor (st : Heap) (i : Nat) : Heap :=
  let st1 := st.free (st.obj i).c_obj_
  { st1 with objs := st1.objs.eraseIdx i }

/-- `World::World()`. -/
def World.ctor (st : Heap) (ok : Bool) : Outcome := ctor_checked st ok "librdf_new_world"

/-- `Node(const World &, const unsigned char *uri_string)`. -/
def Node.ctor_uri_string (st : Heap) (ok : Bool) : Outcome :=
  ctor_checked st ok "librdf_new_node_from_uri_string"

/-- `Node(const World &, const unsigned char *value, const Uri &datatype_uri)`. -/
def Node.ctor_typed_literal (st : Heap) (ok : Bool) : Outcome :=
  ctor_checked st ok "librdf_new_node_from_typed_literal"

/-- `Node(const World &, const unsigned char *string, const char *xml_language, int)`. -/
def Node.ctor_literal (st : Heap) (ok : Bool) : Outcome :=
  ctor_checked st ok "librdf_new_node_from_literal"

/-- `Node(const World &, const unsigned char *identifier, blank_node_t)`, to which the other
two blank-node constructors delegate; the body is empty. -/
def Node.ctor_blank (st : Heap) (ok : Bool) : Outcome := ctor_unchecked st ok

/-- `Node::make_blank_node`: `Node(world, blank_node_t())`. -/
def Node.make_blank_node (st : Heap) (ok : Bool) : Outcome := Node.ctor_blank st ok

/-- What `Statement(world, subject, predicate, object)` does. -/
structure StatementCtor where
  passed : Option Handle × Option Handle × Option Handle
  outcome : Outcome
  deriving DecidableEq, Repr

/-- `Statement(const World &, Node subject, Node predicate, Node object)`: the three
parameter objects are released into `librdf_new_statement_from_nodes`, whose result is tested.
`passed` are the node handles the engine receives. -/
def Statement.ctor_from_nodes (st : Heap) (subject predicate object : Nat) (ok : Bool) :
    StatementCtor :=
  let rs := st.release subject
  let rp := rs.2.release predicate
  let ro := rp.2.release object
  let r := ro.2.new_handle ok
  ⟨(rs.1, rp.1, ro.1),
    if r.1.isNone then ⟨r.2, some "librdf_new_statement_from_nodes"⟩
    else ⟨r.2.push ⟨r.1⟩, none⟩⟩

/-- One operation of a program on the wrappers of one class. -/
inductive Op where
  | construct (ok : Bool)
  | construct_unchecked (ok : Bool)
  | construct_empty
  | copy_construct (src : Nat) (ok : Bool)
  | copy_assign (dst src : Nat) (ok : Bool)
  | move_construct (src : Nat)
  | move_assign (dst src : Nat)
  | destroy (i : Nat)
  deriving DecidableEq, Repr

/-- The heap after one operation; an operation that names an object that is not alive, or
that the class does not have, does nothing. A raised exception leaves the heap as it was when
it was raised. -/
def step (c : HandleClass) (st : Heap) : Op → Heap
  | Op.construct ok => (ctor_checked st ok "AllocException").heap
  | Op.construct_unchecked ok => (ctor_unchecked st ok).heap
  | Op.construct_empty => ctor_empty st
  | Op.copy_construct src ok =>
    if src < st.objs.length then
      match copy_ctor c st src ok with
      | none => st
      | some o => o.heap
    else st
  | Op.copy_assign dst src ok =>
    if dst < st.objs.length ∧ src < st.objs.length then
      match copy_assign c st dst src ok with
      | none => st
      | some o => o.heap
    else st
  | Op.move_construct src => if src < st.objs.length then move_ctor st src else st
  | Op.move_assign dst src =>
    if dst < st.objs.length ∧ src < st.objs.length then move_assign c st dst src else st
  | Op.destroy i => if i < st.objs.length then dtor st i else st

/-- The heap after a sequence of operations. -/
def run (c : HandleClass) (st : Heap) (ops : List Op) : Heap := ops.foldl (step c) st

/-- The handle held through a pointer, as a multiset. -/
def owned (p : Option Handle) : Multiset Handle :=
  match p with
  | none => 0
  | some h => {h}

/-- The handles held by a list of wrappers. -/
def held : List CObjWrapper → Multiset Handle
  | [] => 0
  | w :: rest => owned w.c_obj_ + held rest

/-- The handles that are freed or held. -/
def Heap.mass (st : Heap) : Multiset Handle := (st.frees : Multiset Handle) + held st.objs

/-- The ownership invariant: the handles handed out so far are exactly the handles that are
freed or held, each once. -/
def Balanced (st : Heap) : Prop := st.mass = Multiset.range st.next

/-- An allocation attempt `r` made on heap `st`: wrappers and frees are untouched, and the
handle that came back, if any, is the one new handle. -/
def Alloc (st : Heap) (r : Option Handle × Heap) : Prop :=
  r.2.frees = st.frees ∧ r.2.objs = st.objs ∧
    Multiset.range r.2.next = Multiset.range st.next + owned r.1

/-- A heap with two live wrappers holding the handles 0 and 1. -/
def fx_two : Heap := ⟨2, [], [⟨some 0⟩, ⟨some 1⟩]⟩

/-- A heap with three live wrappers holding the handles 0, 1 and 2. -/
def fx_three : Heap := ⟨3, [], [⟨some 0⟩, ⟨some 1⟩, ⟨some 2⟩]⟩

/-! ## Node equality and projection -/

/-- The engine primitive `librdf_node_equals`: non-zero for equal nodes, 0 otherwise and for
a null node. -/
def librdf_node_equals (a b : Node) : Int :=
  if a.is_valid && b.is_valid && decide (a = b) then 1 else 0

/-- `Node::operator==`: `librdf_node_equals(c_obj(), other.c_obj()) == 0`. -/
def Node.operator_eq (a b : Node) : Bool := librdf_node_equals a b == 0

/-- The engine primitive `librdf_uri_equals` on URI handles given by their string: non-zero
for equal URIs. -/
def librdf_uri_equals (a b : Option String) : Int :=
  if a.isSome && b.isSome && decide (a = b) then 1 else 0

/-- `Uri::operator==`: `librdf_uri_equals(c_obj_, uri.c_obj()) != 0`. -/
def Uri.operator_eq (a b : Option String) : Bool := librdf_uri_equals a b != 0

/-- What the engine answers about a node handle: the two kind tests and the three string
accessors, each of which may return a null string. -/
structure EngineNode where
  is_blank : Bool
  is_literal : Bool
  uri : Option String
  literal_value : Option String
  blank_identifier : Option String
  deriving DecidableEq, Repr

/-- The idiom `s ? s : ""` of the string accessors. -/
def or_empty (s : Option String) : String := s.getD ""

/-- `Node::to_string` over the answers of the engine:
`is_blank() ? get_blank_identifier() : (is_literal() ? get_literal_value() : get_uri_as_string())`. -/
def EngineNode.to_string (v : EngineNode) : String :=
  if v.is_blank then or_empty v.blank_identifier
  else if v.is_literal then or_empty v.literal_value
  else or_empty v.uri

/-- The answers of the engine for a node. -/
def Node.engine_view : Node → EngineNode
  | Node.resource u => ⟨false, false, some u, none, none⟩
  | Node.literal v _ _ => ⟨false, true, none, some v, none⟩
  | Node.blank i => ⟨true, false, none, none, some i⟩
  | Node.empty => ⟨false, false, none, none, none⟩

/-- `Node::to_string`. -/
def Node.to_string (n : Node) : String := n.engine_view.to_string

/-! ## Sequence bridge (`Stream` and `Stream::StreamContext` of `redland.hpp`)

A `librdf_stream` is seen through its context and its three callbacks, which is also how
`librdf_new_stream` builds one; `librdf_stream_end`, `librdf_stream_get_object` and
`librdf_stream_next` dispatch to them. -/

/-- A `librdf_statement` object of the engine: its identity and the triple it stands for. -/
structure LibrdfStatement where
  id : Handle
  triple : Statement
  deriving DecidableEq, Repr

/-- A `Redland::Statement` object: the held `librdf_statement *`, `none` for null. -/
structure StatementObject where
  c_obj_ : Option LibrdfStatement
  deriving DecidableEq, Repr

/-- `CObjWrapper::c_obj` of a `Redland::Statement`. -/
def StatementObject.c_obj (w : StatementObject) : Option LibrdfStatement := w.c_obj_

/-- `CObjWrapper::is_valid` of a `Redland::Statement`. -/
def StatementObject.is_valid (w : StatementObject) : Bool := w.c_obj_.isSome

/-- The projection code `LIBRDF_STREAM_GET_METHOD_GET_OBJECT` of `librdf.h`. -/
def LIBRDF_STREAM_GET_METHOD_GET_OBJECT : Int := 0

/-- The projection code `LIBRDF_STREAM_GET_METHOD_GET_CONTEXT` of `librdf.h`. -/
def LIBRDF_STREAM_GET_METHOD_GET_CONTEXT : Int := 1

/-- A `librdf_stream`: the context pointer and the callbacks given to `librdf_new_stream`.
Each callback receives the mutable context. -/
structure LibrdfStream (σ : Type) where
  context : σ
  is_end_method : σ → Int × σ
  next_method : σ → Int × σ
  get_method : σ → Int → Option LibrdfStatement × σ

/-- `librdf_stream_end`: non-zero at the end of the stream. -/
def librdf_stream_end {σ : Type} (s : LibrdfStream σ) : Int × LibrdfStream σ :=
  let r := s.is_end_method s.context
  (r.1, { s with context := r.2 })

/-- `librdf_stream_get_object`: the current statement, not owned by the caller. -/
def librdf_stream_get_object {σ : Type} (s : LibrdfStream σ) :
    Option LibrdfStatement × LibrdfStream σ :=
  let r := s.get_method s.context LIBRDF_STREAM_GET_METHOD_GET_OBJECT
  (r.1, { s with context := r.2 })

/-- `librdf_stream_next`: move to the next statement. -/
def librdf_stream_next {σ : Type} (s : LibrdfStream σ) : Int × LibrdfStream σ :=
  let r := s.next_method s.context
  (r.1, { s with context := r.2 })

/-- The `while` loop of `Stream::copy_n`; `todo` is `count - i`. `clone` is the engine
primitive `librdf_new_statement_from_statement`. -/
def Stream.copy_n_loop {σ : Type} (clone : LibrdfStatement → Option LibrdfStatement) :
    Nat → LibrdfStream σ → List StatementObject → LibrdfStream σ × List StatementObject
  | 0, s, out => (s, out)
  | todo + 1, s, out =>
    let e := librdf_stream_end s
    if e.1 ≠ 0 then (e.2, out)
    else
      let g := librdf_stream_get_object e.2
      let out1 :=
        match g.1 with
        | some stmt => out ++ [⟨clone stmt⟩]
        | none => out
      Stream.copy_n_loop clone todo (librdf_stream_next g.2).2 out1

/-- `Stream::copy_n(first, count)`: the stream afterwards and the output sequence. -/
def Stream.copy_n {σ : Type} (clone : LibrdfStatement → Option LibrdfStatement)
    (s : LibrdfStream σ) (out : List StatementObject) (count : Int) :
    LibrdfStream σ × List StatementObject :=
  Stream.copy_n_loop clone count.toNat s out

/-- `Stream::copy(first)`: as `copy_n` without the count. The first argument bounds the
number of loop iterations; `none` means the bound was hit. -/
def Stream.copy {σ : Type} (clone : LibrdfStatement → Option LibrdfStatement) :
    Nat → LibrdfStream σ → List StatementObject →
      Option (LibrdfStream σ × List StatementObject)
  | 0, _, _ => none
  | fuel + 1, s, out =>
    let e := librdf_stream_end s
    if e.1 ≠ 0 then some (e.2, out)
    else
      let g := librdf_stream_get_object e.2
      let out1 :=
        match g.1 with
        | some stmt => out ++ [⟨clone stmt⟩]
        | none => out
      Stream.copy clone fuel (librdf_stream_next g.2).2 out1

/-- `Stream::StreamContext<T>`: the positions `current` and `end` into the container the
adapter was built from. -/
structure StreamContext where
  container : List StatementObject
  current : Nat
  end_ : Nat
  deriving DecidableEq, Repr

namespace StreamContext

/-- `StreamContext(const T &container)`: `current(container.begin())`, `end(container.end())`. -/
def create (container : List StatementObject) : StreamContext :=
  ⟨container, 0, container.length⟩

/-- `StreamContext::is_end(void *ctx)`. -/
def is_end (sctx : StreamContext) : Int × StreamContext :=
  (if sctx.current = sctx.end_ then 1 else 0, sctx)

/-- `StreamContext::next(void *ctx)`. -/
def next (sctx : StreamContext) : Int × StreamContext :=
  if sctx.current = sctx.end_ then (1, sctx)
  else (0, { sctx with current := sctx.current + 1 })

/-- `StreamContext::get(void *ctx, int flags)`. -/
def get (sctx : StreamContext) (flags : Int) : Option LibrdfStatement × StreamContext :=
  if flags = LIBRDF_STREAM_GET_METHOD_GET_OBJECT then
    (((sctx.container[sctx.current]?).getD ⟨none⟩).c_obj, sctx)
  else if flags = LIBRDF_STREAM_GET_METHOD_GET_CONTEXT then (none, sctx)
  else (none, sctx)

end StreamContext

/-- `Stream::create_from(statements, world)`: the stream built by `librdf_new_stream` over a
fresh `StreamContext`. -/
def Stream.create_from (statements : List StatementObject) : LibrdfStream StreamContext :=
  ⟨StreamContext.create statements, StreamContext.is_end, StreamContext.next,
    StreamContext.get⟩

/-- The stream `s` after `k` calls of `librdf_stream_next`. -/
def advance_n {σ : Type} : Nat → LibrdfStream σ → LibrdfStream σ
  | 0, s => s
  | k + 1, s => advance_n k (librdf_stream_next s).2

/-- The stream `s` stands before the positions `l` (the current statement of each position,
null if it has none), and testing for the end or fetching the current statement leaves it as
it is. -/
def Yields {σ : Type} (s : LibrdfStream σ) : List (Option LibrdfStatement) → Prop
  | [] => (librdf_stream_end s).1 ≠ 0 ∧ (librdf_stream_end s).2 = s
  | x :: xs =>
    (librdf_stream_end s).1 = 0 ∧ (librdf_stream_end s).2 = s ∧
    (librdf_stream_get_object s).1 = x ∧ (librdf_stream_get_object s).2 = s ∧
    Yields (librdf_stream_next s).2 xs

/-- An engine-side stream over the remaining positions of a query result. -/
def list_stream (l : List (Option LibrdfStatement)) :
    LibrdfStream (List (Option LibrdfStatement)) :=
  ⟨l, fun c => (if c = [] then 1 else 0, c), fun c => (if c = [] then 1 else 0, c.tail),
    fun c flags =>
      (if flags = LIBRDF_STREAM_GET_METHOD_GET_OBJECT then c.head?.join else none, c)⟩

/-- A clone primitive that always succeeds: same triple, identity shifted by 100. -/
def fx_clone (r : LibrdfStatement) : Option LibrdfStatement := some ⟨r.id + 100, r.triple⟩

/-- Statement object `A p B` with identity 1. -/
def fx_s1 : LibrdfStatement := ⟨1, ⟨fx_A, fx_p, fx_B⟩⟩

/-- Statement object `B p A` with identity 2. -/
def fx_s2 : LibrdfStatement := ⟨2, ⟨fx_B, fx_p, fx_A⟩⟩

/-- A container of two valid statements. -/
def fx_container : List StatementObject := [⟨some fx_s1⟩, ⟨some fx_s2⟩]

/-- The stream built by `Stream::create_from` over `statements` once it has been advanced to
position `i`. -/
def adapter_at (statements : List StatementObject) (i : Nat) : LibrdfStream StreamContext :=
  ⟨⟨statements, i, statements.length⟩, StreamContext.is_end, StreamContext.next,
    StreamContext.get⟩

/-! ## Namespaces (`redland.hpp`) -/

/-- `Namespaces`: the member `prefixToUriMap_`, a map from prefixes to URIs, as the list of
its entries. -/
structure Namespaces where
  prefixToUriMap_ : List (String × String)
  deriving DecidableEq, Repr

/-- `std::map::find` on `prefixToUriMap_`. -/
def Namespaces.find (ns : Namespaces) (key : String) : Option String :=
  ns.prefixToUriMap_.lookup key

/-- `Namespaces::add_prefix`: `prefixToUriMap_[prefix] = uri`. -/
def Namespaces.add_prefix (ns : Namespaces) (pfx uri : String) : Namespaces :=
  ⟨(pfx, uri) :: ns.prefixToUriMap_.filter (fun e => e.1 != pfx)⟩

/-- `std::string::find` of a single character: the first position holding `c`, `none` for
`npos`. -/
def string_find (c : Char) : List Char → Option Nat
  | [] => none
  | x :: xs => if x = c then some 0 else (string_find c xs).map (· + 1)

/-- `Namespaces::expand(uri) const`: the expanded string, and the object as the call leaves
it. -/
def Namespaces.expand (ns : Namespaces) (uri : String) : String × Namespaces :=
  match string_find ':' uri.data with
  | none => (uri, ns)
  | some i =>
    let pfx : String := ⟨uri.data.take i⟩
    match ns.find pfx with
    | none => (uri, ns)
    | some u => (u ++ ⟨uri.data.drop (i + 1)⟩, ns)

/-- The prefix table with `ex` registered to `http://example.org/`. -/
def fx_ns : Namespaces := Namespaces.add_prefix ⟨[]⟩ "ex" "http://example.org/"

/-! ## Parse and serialize convenience functions (`redland.hpp`) -/

/-- The codec side of the engine: whether `librdf_new_parser` / `librdf_new_serializer` /
`librdf_new_uri` return an object for a name, and the result codes of parsing and
serializing with the codec of a given name. -/
structure CodecEngine where
  parser_available : String → Bool
  serializer_available : String → Bool
  uri_available : String → Bool
  parse : String → String → Option String → Int
  serialize : String → Int

/-- What a convenience function did: the codec name it asked the engine for, its result,
and whether `AllocException` was raised. -/
structure CodecCall where
  requested : String
  result : Bool
  thrown : Bool
  deriving DecidableEq, Repr

/-- `parse_rdf(filename, base_uri, world, model, format_name)`. -/
def parse_rdf (eng : CodecEngine) (filename : String) (base_uri : Option String)
    (_format_name : String) : CodecCall :=
  if !eng.parser_available "turtle" then ⟨"turtle", false, false⟩
  else
    match base_uri with
    | some b =>
      if !eng.uri_available b then ⟨"turtle", false, true⟩
      else ⟨"turtle", eng.parse "turtle" filename (some b) == 0, false⟩
    | none => ⟨"turtle", eng.parse "turtle" filename none == 0, false⟩

/-- `parse_rdf_from_string(str, base_uri, world, model, format_name)`. -/
def parse_rdf_from_string (eng : CodecEngine) (str : String) (base_uri : Option String)
    (_format_name : String) : CodecCall :=
  if !eng.parser_available "turtle" then ⟨"turtle", false, false⟩
  else
    match base_uri with
    | some b =>
      if !eng.uri_available b then ⟨"turtle", false, true⟩
      else ⟨"turtle", eng.parse "turtle" str (some b) == 0, false⟩
    | none => ⟨"turtle", eng.parse "turtle" str none == 0, false⟩

/-- `serialize_rdf(fd, world, model, namespaces, format_name)`. -/
def serialize_rdf (eng : CodecEngine) (format_name : String) : CodecCall :=
  if !eng.serializer_available format_name then ⟨format_name, false, false⟩
  else ⟨format_name, eng.serialize format_name == 0, false⟩

/-- An engine that has every codec and reports success. -/
def fx_engine : CodecEngine :=
  ⟨fun _ => true, fun _ => true, fun _ => true, fun _ _ _ => 0, fun _ => 0⟩

/-! ## Store mutation and query (`Model` of `redland.hpp`) -/

/-- `librdf_model_as_stream`: the statements of the store in enumeration order. -/
def librdf_model_as_stream (model : Model) : List Statement := model

/-- `librdf_model_remove_statement`: the store without the statement. -/
def librdf_model_remove_statement (model : Model) (stmt : Statement) : Model :=
  model.filter (fun s => decide (s ≠ stmt))

/-- `Model::remove_all_statements`. -/
def Model.remove_all_statements (model : Model) : Model :=
  match librdf_model_as_stream model with
  | [] => model
  | stmt :: _ => librdf_model_remove_statement model stmt

/-- `Model::as_stream().is_end()`. -/
def Model.as_stream_is_end (model : Model) : Bool := (librdf_model_as_stream model).isEmpty

/-- `Model::has_statement`: the query for the statement is not at its end. -/
def Model.has_statement (model : Model) (statement : Statement) : Bool :=
  !(find_statements model statement).isEmpty

/-- The literal `"5"^^xsd:int`. -/
def fx_five_int : Node :=
  Node.literal "5" none (some "http://www.w3.org/2001/XMLSchema#int")

/-- The literal `"5"^^xsd:string`. -/
def fx_five_string : Node :=
  Node.literal "5" none (some "http://www.w3.org/2001/XMLSchema#string")

/-- An input channel fit for the callbacks: good, or at end-of-input with nothing left. -/
def IStream.fault_free (st : IStream) : Prop :=
  st.ios.good = true ∨ (st.ios.eof = true ∧ st.data = [])

/-! ## Lemmas on keys -/

theorem node_id_blank (i : String) : node_id (Node.blank i) = "b:" ++ i := rfl

theorem node_id_blank_inj {a b : Node} (ha : a.is_blank = true) (hb : b.is_blank = true)
    (h : node_id a = node_id b) : a = b := by
  cases a <;> simp [Node.is_blank] at ha
  cases b <;> simp [Node.is_blank] at hb
  rename_i i j
  simp only [node_id_blank] at h
  have h2 := congrArg String.data h
  simp only [String.data_append] at h2
  have h3 := List.append_cancel_left h2
  rw [String.ext h3]

theorem node_id_ne_of_not_blank {a b : Node} (ha : a.is_blank = false) (hb : b.is_blank = true) :
    node_id a ≠ node_id b := by
  cases b <;> simp [Node.is_blank] at hb
  intro h
  have h2 := congrArg String.data h
  cases a <;> simp [Node.is_blank] at ha <;>
    simp [node_id, Node.is_blank, Node.is_literal, Node.get_uri_as_string,
      Node.get_literal_value, Node.get_blank_identifier, String.data_append] at h2

/-! ## The visited set only grows -/

theorem visit_statements_mono (visit : Node → Walk → Option Walk)
    (hv : ∀ b w w', visit b w = some w' → w.added_names ⊆ w'.added_names) :
    ∀ (l : List Statement) (w w' : Walk), visit_statements visit l w = some w' →
      w.added_names ⊆ w'.added_names := by
  intro l
  induction l with
  | nil =>
    intro w w' h
    simp only [visit_statements, Option.some.injEq] at h
    subst h
    exact fun _ hk => hk
  | cons s rest ih =>
    intro w w' h
    simp only [visit_statements] at h
    split at h
    · split at h
      · exact absurd h (by simp)
      · rename_i w2 hw2
        have h1 := hv _ _ _ hw2
        have h2 := ih _ _ h
        exact fun k hk => h2 (h1 hk)
    · exact ih { w with out := w.out ++ [s] } w' h

theorem add_reachable_blank_nodes_mono (model : Model) :
    ∀ (fuel : Nat) (node : Node) (w w' : Walk),
      add_reachable_blank_nodes model fuel node w = some w' →
      w.added_names ⊆ w'.added_names ∧ node_id node ∈ w'.added_names := by
  intro fuel
  induction fuel with
  | zero => intro node w w' h; simp [add_reachable_blank_nodes] at h
  | succ fuel ih =>
    intro node w w' h
    simp only [add_reachable_blank_nodes] at h
    split at h
    · rename_i hmem
      simp only [Option.some.injEq] at h
      subst h
      exact ⟨fun _ hk => hk, hmem⟩
    · have h1 := visit_statements_mono (add_reachable_blank_nodes model fuel)
        (fun b w w' hb => (ih b w w' hb).1) _ _ _ h
      exact ⟨fun k hk => h1 (List.mem_cons_of_mem _ hk), h1 (List.mem_cons_self _ _)⟩

/-! ## The traversal invariant -/

theorem Reach.trans {model : Model} {a b c : Node} (hab : Reach model a b)
    (hbc : Reach model b c) : Reach model a c := by
  induction hbc with
  | anchor => exact hab
  | step _ hs hsub hbl ih => exact Reach.step ih hs hsub hbl

theorem find_statements_subject (model : Model) (n : Node) (hn : n.is_valid = true) :
    find_statements model ⟨n, Node.empty, Node.empty⟩ =
      model.filter (fun s => decide (s.subject = n)) := by
  unfold find_statements
  congr 1
  funext s
  have he : Node.empty.is_valid = false := rfl
  simp [statement_match, node_match, hn, he]

theorem visit_statements_loop (model : Model) (n : Node)
    (visit : Node → Walk → Option Walk)
    (hv : ∀ b w w2, b.is_blank = true → visit b w = some w2 → ∃ seg, Run model b w w2 seg) :
    ∀ (l : List Statement) (w w2 : Walk),
      (∀ s ∈ l, s ∈ model ∧ s.subject = n ∧ node_id s.subject ∈ w.added_names) →
      visit_statements visit l w = some w2 → ∃ seg, Loop model n l w w2 seg := by
  intro l
  induction l with
  | nil =>
    intro w w2 _ h
    simp only [visit_statements, Option.some.injEq] at h
    subst h
    refine ⟨[], ?_, ?_, ?_, ?_, ?_, ?_, ?_⟩
    · simp
    · exact fun _ hk => hk
    · intro s hs; simp at hs
    · intro s hs; simp at hs
    · intro _ _; exact List.nodup_nil
    · rfl
    · intro x _ hf; exact absurd hf.1 hf.2
  | cons s rest ih =>
    intro w w2 hl h
    have hs := hl s (List.mem_cons_self _ _)
    have hrest : ∀ t ∈ rest, t ∈ model ∧ t.subject = n ∧ node_id t.subject ∈ w.added_names :=
      fun t ht => hl t (List.mem_cons_of_mem _ ht)
    simp only [visit_statements] at h
    split at h
    · rename_i hbl
      split at h
      · exact absurd h (by simp)
      · rename_i w1 hw1
        obtain ⟨seg1, r⟩ := hv _ _ _ hbl hw1
        have hrest1 : ∀ t ∈ rest,
            t ∈ model ∧ t.subject = n ∧ node_id t.subject ∈ w1.added_names :=
          fun t ht => ⟨(hrest t ht).1, (hrest t ht).2.1, r.mono (hrest t ht).2.2⟩
        obtain ⟨seg2, q⟩ := ih w1 w2 hrest1 h
        have hnb : Reach model n s.object :=
          Reach.step (hs.2.1 ▸ Reach.anchor) hs.1 hs.2.1 hbl
        -- facts about the two segments
        have hseg1 : ∀ t ∈ seg1, node_id t.subject ∈ w1.added_names ∧
            node_id t.subject ∉ w.added_names := fun t ht => (r.sound t ht).2.1
        have hseg2 : ∀ t ∈ seg2, t ∈ rest ∨ node_id t.subject ∉ w1.added_names :=
          fun t ht => (q.sound t ht).2.2.imp id (fun hf => hf.1.2)
        refine ⟨s :: (seg1 ++ seg2), ?_, ?_, ?_, ?_, ?_, ?_, ?_⟩
        · rw [q.out_eq, r.out_eq]; simp
        · exact fun k hk => q.mono (r.mono hk)
        · intro t ht
          rcases List.mem_cons.mp ht with rfl | ht
          · exact ⟨hs.1, hs.2.1 ▸ Reach.anchor, Or.inl (List.mem_cons_self _ _)⟩
          rcases List.mem_append.mp ht with ht | ht
          · obtain ⟨hm, hf, hsub, hr⟩ := r.sound t ht
            refine ⟨hm, Reach.trans hnb hr, Or.inr ⟨⟨q.mono hf.1, hf.2⟩, ?_⟩⟩
            rcases hsub with hsub | hsub
            · rw [hsub]; exact hbl
            · exact hsub
          · obtain ⟨hm, hr, hc⟩ := q.sound t ht
            refine ⟨hm, hr, ?_⟩
            rcases hc with hc | hc
            · exact Or.inl (List.mem_cons_of_mem _ hc)
            · exact Or.inr ⟨⟨hc.1.1, fun hk => hc.1.2 (r.mono hk)⟩, hc.2⟩
        · intro t ht
          rcases List.mem_cons.mp ht with rfl | ht
          · exact ⟨List.mem_cons_self _ _, fun _ => q.mono r.visited⟩
          · obtain ⟨h1, h2⟩ := q.emitted t ht
            exact ⟨List.mem_cons_of_mem _ (List.mem_append_right _ h1), h2⟩
        · intro hmod hnd
          have hnd' := List.nodup_cons.mp hnd
          apply List.nodup_cons.mpr
          constructor
          · intro hmem
            rcases List.mem_append.mp hmem with hmem | hmem
            · exact (hseg1 s hmem).2 hs.2.2
            · rcases hseg2 s hmem with hc | hc
              · exact hnd'.1 hc
              · exact hc (r.mono hs.2.2)
          · apply List.Nodup.append (r.nodup hmod) (q.nodup hmod hnd'.2)
            intro t ht1 ht2
            rcases hseg2 t ht2 with hc | hc
            · exact (hseg1 t ht1).2 (hrest t hc).2.2
            · exact hc (hseg1 t ht1).1
        · have h1 : seg1.filter (fun t => decide (t.subject = n)) = [] := by
            apply List.filter_eq_nil_iff.mpr
            intro t ht htn
            have htn' : t.subject = n := by simpa using htn
            apply (hseg1 t ht).2
            rw [htn', ← hs.2.1]
            exact hs.2.2
          simp only [List.filter_cons, List.filter_append, hs.2.1, decide_True, if_true, h1,
            q.order, List.nil_append]
        · intro x hx hf t ht htx
          by_cases hk : node_id x ∈ w1.added_names
          · obtain ⟨h1, h2⟩ := r.closed x (Or.inr hx) ⟨hk, hf.2⟩ t ht htx
            exact ⟨List.mem_cons_of_mem _ (List.mem_append_left _ h1), fun hb => q.mono (h2 hb)⟩
          · obtain ⟨h1, h2⟩ := q.closed x hx ⟨hf.1, hk⟩ t ht htx
            exact ⟨List.mem_cons_of_mem _ (List.mem_append_right _ h1), h2⟩
    · rename_i hbl
      obtain ⟨seg2, q⟩ := ih { w with out := w.out ++ [s] } w2 hrest h
      refine ⟨s :: seg2, ?_, ?_, ?_, ?_, ?_, ?_, ?_⟩
      · rw [q.out_eq]; simp
      · exact q.mono
      · intro t ht
        rcases List.mem_cons.mp ht with rfl | ht
        · exact ⟨hs.1, hs.2.1 ▸ Reach.anchor, Or.inl (List.mem_cons_self _ _)⟩
        · obtain ⟨hm, hr, hc⟩ := q.sound t ht
          exact ⟨hm, hr, hc.imp (List.mem_cons_of_mem _) id⟩
      · intro t ht
        rcases List.mem_cons.mp ht with rfl | ht
        · exact ⟨List.mem_cons_self _ _, fun hb => absurd hb hbl⟩
        · obtain ⟨h1, h2⟩ := q.emitted t ht
          exact ⟨List.mem_cons_of_mem _ h1, h2⟩
      · intro hmod hnd
        have hnd' := List.nodup_cons.mp hnd
        apply List.nodup_cons.mpr
        refine ⟨?_, q.nodup hmod hnd'.2⟩
        intro hmem
        rcases (q.sound s hmem).2.2 with hc | hc
        · exact hnd'.1 hc
        · exact hc.1.2 hs.2.2
      · simp only [List.filter_cons, hs.2.1, decide_True, if_true, q.order]
      · intro x hx hf t ht htx
        obtain ⟨h1, h2⟩ := q.closed x hx hf t ht htx
        exact ⟨List.mem_cons_of_mem _ h1, h2⟩

theorem add_reachable_blank_nodes_run (model : Model) :
    ∀ (fuel : Nat) (n : Node) (w w2 : Walk), n.is_valid = true →
      add_reachable_blank_nodes model fuel n w = some w2 → ∃ seg, Run model n w w2 seg := by
  intro fuel
  induction fuel with
  | zero => intro n w w2 _ h; simp [add_reachable_blank_nodes] at h
  | succ fuel ih =>
    intro n w w2 hn h
    simp only [add_reachable_blank_nodes] at h
    split at h
    · rename_i hmem
      simp only [Option.some.injEq] at h
      subst h
      refine ⟨[], ?_, ?_, hmem, ?_, ?_, ?_, ?_⟩
      · simp
      · exact fun _ hk => hk
      · intro s hs; simp at hs
      · intro _; exact List.nodup_nil
      · intro hnot; exact absurd hmem hnot
      · intro x _ hf; exact absurd hf.1 hf.2
    · rename_i hmem
      rw [find_statements_subject model n hn] at h
      have hblank_valid : ∀ b : Node, b.is_blank = true → b.is_valid = true := by
        intro b hb; cases b <;> simp [Node.is_blank] at hb; rfl
      obtain ⟨seg, q⟩ := visit_statements_loop model n (add_reachable_blank_nodes model fuel)
        (fun b w w2 hb hrun => ih b w w2 (hblank_valid b hb) hrun) _ _ _
        (by
          intro s hs
          have h1 := List.mem_filter.mp hs
          have h2 : s.subject = n := by simpa using h1.2
          exact ⟨h1.1, h2, by rw [h2]; exact List.mem_cons_self _ _⟩) h
      have hvis : node_id n ∈ w2.added_names := q.mono (List.mem_cons_self _ _)
      refine ⟨seg, ?_, ?_, hvis, ?_, ?_, ?_, ?_⟩
      · exact q.out_eq
      · exact fun k hk => q.mono (List.mem_cons_of_mem _ hk)
      · intro s hs
        obtain ⟨hm, hr, hc⟩ := q.sound s hs
        refine ⟨hm, ?_, ?_, hr⟩
        · rcases hc with hc | hc
          · have h2 : s.subject = n := by simpa using (List.mem_filter.mp hc).2
            rw [h2]; exact ⟨hvis, hmem⟩
          · exact ⟨hc.1.1, fun hk => hc.1.2 (List.mem_cons_of_mem _ hk)⟩
        · rcases hc with hc | hc
          · exact Or.inl (by simpa using (List.mem_filter.mp hc).2)
          · exact Or.inr hc.2
      · intro hmod
        exact q.nodup hmod (hmod.filter _)
      · intro _
        exact q.order
      · intro x hx hf s hs hsx
        by_cases hxn : x = n
        · subst hxn
          exact q.emitted s (List.mem_filter.mpr ⟨hs, by simpa using hsx⟩)
        · have hxb : x.is_blank = true := hx.resolve_left hxn
          have hkey : node_id x ≠ node_id n := by
            intro hk
            cases hnb : n.is_blank
            · exact node_id_ne_of_not_blank hnb hxb hk.symm
            · exact hxn (node_id_blank_inj hxb hnb hk)
          refine q.closed x hxb ⟨hf.1, ?_⟩ s hs hsx
          intro hk
          rcases List.mem_cons.mp hk with hk | hk
          · exact hkey hk
          · exact hf.2 hk

/-! ## Termination -/

theorem unvisited_anti (model : Model) (anchor : Node) {a b : List String} (h : a ⊆ b) :
    unvisited model anchor b ≤ unvisited model anchor a := by
  unfold unvisited
  apply Finset.card_le_card
  intro k hk
  simp only [Finset.mem_sdiff, List.mem_toFinset] at hk ⊢
  exact ⟨hk.1, fun hka => hk.2 (h hka)⟩

theorem unvisited_cons_lt (model : Model) (anchor : Node) {a : List String} {k : String}
    (hk : k ∈ key_universe model anchor) (hka : k ∉ a) :
    unvisited model anchor (k :: a) < unvisited model anchor a := by
  unfold unvisited
  apply Finset.card_lt_card
  constructor
  · intro x hx
    simp only [Finset.mem_sdiff, List.mem_toFinset, List.mem_cons, not_or] at hx ⊢
    exact ⟨hx.1, hx.2.2⟩
  · intro hsub
    have : k ∈ (key_universe model anchor).toFinset \ (k :: a).toFinset := by
      apply hsub
      simp only [Finset.mem_sdiff, List.mem_toFinset]
      exact ⟨hk, hka⟩
    simp at this

theorem unvisited_le (model : Model) (anchor : Node) (a : List String) :
    unvisited model anchor a ≤ model.length + 1 := by
  unfold unvisited
  calc ((key_universe model anchor).toFinset \ a.toFinset).card
      ≤ (key_universe model anchor).toFinset.card := Finset.card_le_card Finset.sdiff_subset
    _ ≤ (key_universe model anchor).length := List.toFinset_card_le _
    _ = model.length + 1 := by simp [key_universe]

theorem visit_statements_terminates (model : Model) (anchor : Node) (fuel : Nat)
    (visit : Node → Walk → Option Walk)
    (hmono : ∀ b w w', visit b w = some w' → w.added_names ⊆ w'.added_names)
    (hv : ∀ (b : Node) (w : Walk), node_id b ∈ key_universe model anchor →
      unvisited model anchor w.added_names < fuel → ∃ w', visit b w = some w') :
    ∀ (l : List Statement), (∀ s ∈ l, node_id s.object ∈ key_universe model anchor) →
      ∀ w : Walk, unvisited model anchor w.added_names < fuel →
      ∃ w', visit_statements visit l w = some w' := by
  intro l
  induction l with
  | nil => intro _ w _; exact ⟨w, rfl⟩
  | cons s rest ih =>
    intro hl w hw
    have hrest : ∀ t ∈ rest, node_id t.object ∈ key_universe model anchor :=
      fun t ht => hl t (List.mem_cons_of_mem _ ht)
    simp only [visit_statements]
    split
    · obtain ⟨w2, hw2⟩ := hv s.object { w with out := w.out ++ [s] }
        (hl s (List.mem_cons_self _ _)) hw
      rw [hw2]
      have hsub := hmono _ _ _ hw2
      exact ih hrest w2 (lt_of_le_of_lt (unvisited_anti model anchor hsub) hw)
    · exact ih hrest _ hw

theorem add_reachable_blank_nodes_terminates (model : Model) (anchor : Node) :
    ∀ (fuel : Nat) (node : Node) (w : Walk), node_id node ∈ key_universe model anchor →
      unvisited model anchor w.added_names < fuel →
      ∃ w', add_reachable_blank_nodes model fuel node w = some w' := by
  intro fuel
  induction fuel with
  | zero => intro node w _ h; exact absurd h (Nat.not_lt_zero _)
  | succ fuel ih =>
    intro node w hnode hw
    simp only [add_reachable_blank_nodes]
    split
    · exact ⟨w, rfl⟩
    · rename_i hmem
      apply visit_statements_terminates model anchor fuel
        (add_reachable_blank_nodes model fuel)
        (fun b w w' hb => (add_reachable_blank_nodes_mono model fuel b w w' hb).1) ih
      · intro s hs
        have hs' : s ∈ model := (List.mem_filter.mp hs).1
        exact List.mem_cons_of_mem _ (List.mem_map.mpr ⟨s, hs', rfl⟩)
      · have := unvisited_cons_lt model anchor hnode hmem
        exact Nat.lt_of_lt_of_le this (Nat.le_of_lt_succ hw)

/-! ## Refinement of the pre-order layout -/

theorem visit_statements_refines (visit : Node → Walk → Option Walk)
    (expand : Node → List String → Option (List String × List Statement))
    (hv : ∀ b w, visit b w = (expand b w.added_names).map w.extend) :
    ∀ (l : List Statement) (w : Walk),
      visit_statements visit l w = (expand_statements expand l w.added_names).map w.extend := by
  intro l
  induction l with
  | nil => intro w; simp [visit_statements, expand_statements, Walk.extend]
  | cons s rest ih =>
    intro w
    simp only [visit_statements, expand_statements]
    split
    · rw [hv]
      cases h1 : expand s.object w.added_names with
      | none => simp
      | some r1 =>
        obtain ⟨a1, e⟩ := r1
        simp only [Option.map_some', Walk.extend]
        rw [ih]
        cases h2 : expand_statements expand rest a1 with
        | none => simp
        | some r2 => simp [Walk.extend]
    · rw [ih]
      cases h2 : expand_statements expand rest w.added_names with
      | none => simp
      | some r2 => simp [Walk.extend]

theorem add_reachable_blank_nodes_refines (model : Model) :
    ∀ (fuel : Nat) (node : Node) (w : Walk),
      add_reachable_blank_nodes model fuel node w =
        (preorder_expansion model fuel node w.added_names).map w.extend := by
  intro fuel
  induction fuel with
  | zero => intro node w; simp [add_reachable_blank_nodes, preorder_expansion]
  | succ fuel ih =>
    intro node w
    simp only [add_reachable_blank_nodes, preorder_expansion]
    split
    · simp [Walk.extend]
    · rw [visit_statements_refines _ _ ih]
      rfl

/-! ## Results on the reachable-subgraph extractor -/

theorem Reach.anchor_or_blank {model : Model} {anchor x : Node} (h : Reach model anchor x) :
    x = anchor ∨ x.is_blank = true := by
  cases h with
  | anchor => exact Or.inl rfl
  | step _ _ _ hbl => exact Or.inr hbl

theorem get_reachable_statements_run (model : Model) (anchor : Node)
    (hvalid : anchor.is_valid = true) :
    ∃ w2 seg, Run model anchor ⟨[], []⟩ w2 seg ∧
      get_reachable_statements anchor model = some seg := by
  obtain ⟨w2, hw2⟩ := add_reachable_blank_nodes_terminates model anchor (model.length + 2)
    anchor ⟨[], []⟩ (List.mem_cons_self _ _)
    (Nat.lt_succ_of_le (unvisited_le model anchor []))
  obtain ⟨seg, r⟩ := add_reachable_blank_nodes_run model _ anchor _ w2 hvalid hw2
  refine ⟨w2, seg, r, ?_⟩
  have hout : w2.out = seg := by simpa using r.out_eq
  simp [get_reachable_statements, hw2, hout]

/-- C1: for every store and every valid anchor, `get_reachable_statements` returns exactly
the store statements whose subject is the anchor or a blank node reachable from the anchor
through a chain of statements whose objects are blank nodes. -/
theorem get_reachable_statements_exact (model : Model) (anchor : Node)
    (hvalid : anchor.is_valid = true) :
    ∃ out, get_reachable_statements anchor model = some out ∧
      ∀ s, s ∈ out ↔
        (s ∈ model ∧
          (s.subject = anchor ∨ (s.subject.is_blank = true ∧ Reach model anchor s.subject))) := by
  obtain ⟨w2, seg, r, hget⟩ := get_reachable_statements_run model anchor hvalid
  refine ⟨seg, hget, ?_⟩
  have hreach : ∀ x, Reach model anchor x → node_id x ∈ w2.added_names := by
    intro x hx
    induction hx with
    | anchor => exact r.visited
    | step hprev hs hsub hbl ih =>
      rename_i y t
      have hy : y = anchor ∨ y.is_blank = true := hprev.anchor_or_blank
      exact (r.closed y hy ⟨ih, by simp⟩ t hs hsub).2 hbl
  intro s
  constructor
  · intro hs
    obtain ⟨hm, _, hsub, hr⟩ := r.sound s hs
    exact ⟨hm, hsub.imp id (fun hb => ⟨hb, hr⟩)⟩
  · rintro ⟨hm, hsub⟩
    have hr : Reach model anchor s.subject := by
      rcases hsub with h | h
      · rw [h]; exact Reach.anchor
      · exact h.2
    exact (r.closed s.subject hr.anchor_or_blank ⟨hreach _ hr, by simp⟩ s hm rfl).1

/-- C1, at the 2-cycle store with anchor `A`. -/
theorem get_reachable_statements_exact_witness :
    fx_A.is_valid = true ∧
    ∃ out, get_reachable_statements fx_A fx_cycle = some out ∧
      ∀ s, s ∈ out ↔
        (s ∈ fx_cycle ∧
          (s.subject = fx_A ∨ (s.subject.is_blank = true ∧ Reach fx_cycle fx_A s.subject))) :=
  ⟨rfl, get_reachable_statements_exact fx_cycle fx_A rfl⟩

/-- C2: the traversal terminates on every store and every anchor. Inserting an unvisited key
strictly decreases the number of unvisited keys of the finite key universe, the calls made
below a node see the enlarged set, any depth bound above the number of unvisited keys yields a
result whose visited set contains the caller's, and `get_reachable_statements` always returns;
on the 2-cycle store with anchor `A` it returns both statements. -/
theorem add_reachable_blank_nodes_terminates_always (model : Model) (node : Node) :
    (∀ (w : Walk), node_id node ∉ w.added_names →
        unvisited model node (node_id node :: w.added_names)
          < unvisited model node w.added_names) ∧
    (∀ (w : Walk) (fuel : Nat), node_id node ∉ w.added_names →
        add_reachable_blank_nodes model (fuel + 1) node w =
          visit_statements (add_reachable_blank_nodes model fuel)
            (find_statements model ⟨node, Node.empty, Node.empty⟩)
            ⟨node_id node :: w.added_names, w.out⟩) ∧
    (∀ (w : Walk) (fuel : Nat), unvisited model node w.added_names < fuel →
        ∃ w2, add_reachable_blank_nodes model fuel node w = some w2 ∧
          w.added_names ⊆ w2.added_names ∧ node_id node ∈ w2.added_names) ∧
    (∃ out, get_reachable_statements node model = some out) ∧
    get_reachable_statements fx_A fx_cycle = some [⟨fx_A, fx_p, fx_B⟩, ⟨fx_B, fx_p, fx_A⟩] := by
  refine ⟨?_, ?_, ?_, ?_, by decide⟩
  · intro w hw
    exact unvisited_cons_lt model node (List.mem_cons_self _ _) hw
  · intro w fuel hw
    simp [add_reachable_blank_nodes, hw]
  · intro w fuel hw
    obtain ⟨w2, hw2⟩ := add_reachable_blank_nodes_terminates model node fuel node w
      (List.mem_cons_self _ _) hw
    exact ⟨w2, hw2, add_reachable_blank_nodes_mono model fuel node w w2 hw2⟩
  · obtain ⟨w2, hw2⟩ := add_reachable_blank_nodes_terminates model node (model.length + 2)
      node ⟨[], []⟩ (List.mem_cons_self _ _)
      (Nat.lt_succ_of_le (unvisited_le model node []))
    exact ⟨w2.out, by simp [get_reachable_statements, hw2]⟩

/-- C3 (as amended): for every duplicate-free store and every valid anchor (resource, literal
or blank), the output of `get_reachable_statements` contains no statement twice; on the
2-cycle store with anchor `A` each of the two statements occurs exactly once. -/
theorem get_reachable_statements_nodup (model : Model) (anchor : Node)
    (hmodel : model.Nodup) (hvalid : anchor.is_valid = true) :
    (∃ out, get_reachable_statements anchor model = some out ∧ out.Nodup) ∧
    (∃ out, get_reachable_statements fx_A fx_cycle = some out ∧
      out.count ⟨fx_A, fx_p, fx_B⟩ = 1 ∧ out.count ⟨fx_B, fx_p, fx_A⟩ = 1) := by
  constructor
  · obtain ⟨w2, seg, r, hget⟩ := get_reachable_statements_run model anchor hvalid
    exact ⟨seg, hget, r.nodup hmodel⟩
  · exact ⟨fx_cycle, by decide, by decide, by decide⟩

/-- C3 (as amended), at the 2-cycle store with anchor `A`. -/
theorem get_reachable_statements_nodup_witness :
    fx_cycle.Nodup ∧ fx_A.is_valid = true ∧
    (∃ out, get_reachable_statements fx_A fx_cycle = some out ∧ out.Nodup) ∧
    (∃ out, get_reachable_statements fx_A fx_cycle = some out ∧
      out.count ⟨fx_A, fx_p, fx_B⟩ = 1 ∧ out.count ⟨fx_B, fx_p, fx_A⟩ = 1) :=
  ⟨by decide, rfl, get_reachable_statements_nodup fx_cycle fx_A (by decide) rfl⟩

/-- C3, refuted as stated: with the empty anchor the query pattern is all-wildcard, every
store statement is listed, and the statement `B p x` of the duplicate-free chain store
`u p B, B p x` is emitted twice. -/
theorem get_reachable_statements_empty_anchor_duplicates :
    fx_chain.Nodup ∧
    get_reachable_statements Node.empty fx_chain =
      some [⟨Node.resource "u", fx_p, fx_B⟩, ⟨fx_B, fx_p, Node.resource "x"⟩,
        ⟨fx_B, fx_p, Node.resource "x"⟩] ∧
    ¬ ([⟨Node.resource "u", fx_p, fx_B⟩, ⟨fx_B, fx_p, Node.resource "x"⟩,
        ⟨fx_B, fx_p, Node.resource "x"⟩] : List Statement).Nodup := by
  refine ⟨by decide, by decide, by decide⟩

/-- C4: the output order is depth-first pre-order. The traversal appends to the output
exactly the layout `preorder_expansion` (each statement of the node in enumeration order,
followed at once by the complete expansion of its object when that is a blank node, else by
the next statement), and the statements of a valid, not yet visited node occur in the appended
segment in the store's enumeration order for that subject. -/
theorem add_reachable_blank_nodes_preorder (model : Model) (fuel : Nat) (node : Node)
    (w : Walk) :
    add_reachable_blank_nodes model fuel node w =
      (preorder_expansion model fuel node w.added_names).map w.extend ∧
    (∀ w2, node.is_valid = true → node_id node ∉ w.added_names →
      add_reachable_blank_nodes model fuel node w = some w2 →
      ∃ seg, w2.out = w.out ++ seg ∧
        seg.filter (fun t => decide (t.subject = node)) =
          find_statements model ⟨node, Node.empty, Node.empty⟩) := by
  refine ⟨add_reachable_blank_nodes_refines model fuel node w, ?_⟩
  intro w2 hvalid hnew hrun
  obtain ⟨seg, r⟩ := add_reachable_blank_nodes_run model fuel node w w2 hvalid hrun
  exact ⟨seg, r.out_eq, by rw [find_statements_subject model node hvalid]; exact r.order hnew⟩

/-! ## Lemmas on the read loop -/

theorem to_int_of_lt {c : Nat} (h : c < 2 ^ 31) : to_int c = (c : Int) := by
  unfold to_int
  split <;> omega

theorem IosState.fail_of_good {s : IosState} (h : s.good = true) : s.fail = false := by
  cases s
  simp [IosState.good] at h
  simp [IosState.fail, h]

theorem IosState.eof_of_good {s : IosState} (h : s.good = true) : s.eofbit = false := by
  cases s
  simp [IosState.good] at h
  simp [h]

theorem istream_read_full {st : IStream} {n : Nat} (hg : st.ios.good = true)
    (hn : n ≤ st.data.length) :
    istream_read st n = ⟨⟨st.data.drop n, st.ios⟩, st.data.take n, false⟩ := by
  simp [istream_read, hg, hn]

theorem istream_read_short {st : IStream} {n : Nat} (hg : st.ios.good = true)
    (hn : st.data.length < n) :
    istream_read st n =
      ⟨⟨if n < 2 ^ 63 then [] else st.data, st.ios.setstate true true false⟩,
        if n < 2 ^ 63 then st.data else [],
        (st.ios.setstate true true false).raises⟩ := by
  unfold istream_read
  rw [if_pos hg, if_neg (Nat.not_le.mpr hn)]
  by_cases h63 : n < 2 ^ 63
  · simp only [if_pos h63]
  · simp only [if_neg h63]

/-- When every requested unit is available, the loop reads all of them without a fault. -/
theorem read_loop_full (size : Nat) :
    ∀ (todo count : Nat) (st : IStream) (buf : List Nat), st.ios.good = true →
      todo * size ≤ st.data.length →
      (read_loop size todo count st buf).raised = false ∧
      (read_loop size todo count st buf).ret = to_int (count + todo) ∧
      (read_loop size todo count st buf).stream = ⟨st.data.drop (todo * size), st.ios⟩ := by
  intro todo
  induction todo with
  | zero => intro count st buf _ _; simp [read_loop]
  | succ todo ih =>
    intro count st buf hg hlen
    have hsz : size ≤ st.data.length := by
      have : size ≤ (todo + 1) * size := Nat.le_mul_of_pos_left _ (Nat.succ_pos _)
      omega
    have hlen2 : todo * size ≤ (st.data.drop size).length := by
      rw [List.length_drop]
      have : (todo + 1) * size = todo * size + size := Nat.succ_mul _ _
      omega
    have hfail := IosState.fail_of_good hg
    obtain ⟨h1, h2, h3⟩ := ih (count + 1) ⟨st.data.drop size, st.ios⟩
      (write_at buf (count * size) (st.data.take size)) hg hlen2
    simp only [read_loop, istream_read_full hg hsz, hfail, Bool.false_eq_true, if_false]
    refine ⟨h1, ?_, ?_⟩
    · rw [h2]; congr 1; omega
    · rw [h3]
      simp only [List.drop_drop, IStream.mk.injEq, and_true]
      congr 1
      have : (todo + 1) * size = todo * size + size := Nat.succ_mul _ _
      omega

/-- On a good channel and for a positive unit size, a call that raises no fault reads
`min todo (r / size)` units; the channel is left at end-of-input exactly when a unit could not
be completed, and it is drained then if the unit size is below 2^63. -/
theorem read_loop_good (size : Nat) (hs : 1 ≤ size) :
    ∀ (todo count : Nat) (st : IStream) (buf : List Nat), st.ios.good = true →
      (read_loop size todo count st buf).raised = false →
      (read_loop size todo count st buf).ret =
        to_int (count + min todo (st.data.length / size)) ∧
      (read_loop size todo count st buf).stream =
        if todo * size ≤ st.data.length then ⟨st.data.drop (todo * size), st.ios⟩
        else ⟨if size < 2 ^ 63 then [] else st.data.drop (st.data.length / size * size),
          st.ios.setstate true true false⟩ := by
  intro todo
  induction todo with
  | zero => intro count st buf _ _; simp [read_loop]
  | succ todo ih =>
    intro count st buf hg hno
    have hfail := IosState.fail_of_good hg
    have hmul : (todo + 1) * size = todo * size + size := Nat.succ_mul _ _
    by_cases hsz : size ≤ st.data.length
    · simp only [read_loop, istream_read_full hg hsz, hfail, Bool.false_eq_true, if_false]
        at hno ⊢
      obtain ⟨h1, h2⟩ := ih (count + 1) ⟨st.data.drop size, st.ios⟩
        (write_at buf (count * size) (st.data.take size)) hg hno
      have hdiv : st.data.length / size = (st.data.length - size) / size + 1 := by
        rw [Nat.div_eq st.data.length size]
        simp [hsz, Nat.lt_of_lt_of_le Nat.zero_lt_one hs]
      refine ⟨?_, ?_⟩
      · rw [h1]; congr 1
        simp only [List.length_drop]
        rw [hdiv]; omega
      · rw [h2]
        simp only [List.length_drop, List.drop_drop]
        have hiff : todo * size ≤ st.data.length - size ↔
            (todo + 1) * size ≤ st.data.length := by omega
        have hadd : size + todo * size = (todo + 1) * size := by omega
        have hdrop : size + (st.data.length - size) / size * size =
            st.data.length / size * size := by
          rw [hdiv, Nat.succ_mul]; omega
        simp only [hiff, hadd, hdrop]
    · have hlt : st.data.length < size := Nat.lt_of_not_le hsz
      have hnot : ¬ (todo + 1) * size ≤ st.data.length := by
        have : 0 ≤ todo * size := Nat.zero_le _
        omega
      have hdiv : st.data.length / size = 0 := Nat.div_eq_of_lt hlt
      have hf : (st.ios.setstate true true false).fail = true := by
        simp [IosState.setstate, IosState.fail]
      simp only [read_loop, istream_read_short hg hlt] at hno ⊢
      cases hr : (st.ios.setstate true true false).raises
      · by_cases h63 : size < 2 ^ 63
        · simp [hf, hdiv, hnot, h63]
        · simp [hf, hdiv, hnot, h63]
      · simp [hr] at hno

/-- A call that raises no fault returns the converted value of a count between the count
on entry and the requested count. -/
theorem read_loop_bound (size : Nat) :
    ∀ (todo count : Nat) (st : IStream) (buf : List Nat),
      (read_loop size todo count st buf).raised = false →
      ∃ c, count ≤ c ∧ c ≤ count + todo ∧
        (read_loop size todo count st buf).ret = to_int c := by
  intro todo
  induction todo with
  | zero => intro count st buf _; exact ⟨count, le_refl _, le_refl _, by simp [read_loop]⟩
  | succ todo ih =>
    intro count st buf hno
    simp only [read_loop] at hno ⊢
    split
    · rename_i hr; simp [hr] at hno
    · rename_i hr
      simp only [hr, Bool.false_eq_true, if_false] at hno
      split
      · exact ⟨count, le_refl _, by omega, rfl⟩
      · rename_i hf
        simp only [hf, if_false] at hno
        obtain ⟨c, hc1, hc2, hc3⟩ := ih (count + 1) _ _ hno
        exact ⟨c, by omega, by omega, hc3⟩

theorem write_block_raised (st : OStream) (data : List Nat) (k : Nat)
    (hr : (write_block st data k).raised = true) : (write_block st data k).ret = 0 := by
  cases h : (ostream_write st (data.take k)).2 <;> simp [write_block, h] at hr ⊢

/-- A good channel whose sink has room for the whole block takes it whole; the returned value
is the converted byte count. -/
theorem write_block_whole (st : OStream) (data : List Nat) (k : Nat)
    (hg : st.ios.good = true) (hroom : k ≤ st.room) (hlen : k ≤ data.length) :
    (write_block st data k).ret = to_int k ∧
    (write_block st data k).stream.out = st.out ++ data.take k ∧
    (write_block st data k).raised = false := by
  have hl : (data.take k).length ≤ st.room := by
    rw [List.length_take]; omega
  have hw : ostream_write st (data.take k) =
      (⟨st.out ++ data.take k, st.room - (data.take k).length, st.ios⟩, false) := by
    unfold ostream_write ostream_write_with
    rw [if_pos hg, if_pos hl]
    rfl
  simp only [write_block, hw, Bool.false_eq_true, if_false, and_self]

theorem ostream_write_with_refusing_end (st : OStream) (bytes : List Nat) :
    (ostream_write_with false st bytes).2 ≠ WriteEnd.foreign := by
  unfold ostream_write_with
  by_cases hg : st.ios.good = true
  · by_cases hl : bytes.length ≤ st.room
    · simp [hg, hl]
    · cases hr : (st.ios.setstate false false true).raises <;> simp [hg, hl, hr]
  · by_cases hb : st.ios.badbit = true
    · cases hr : (st.ios.setstate false true false).raises <;> simp [hg, hb, hr]
    · simp [hg, hb]

theorem write_frame_refusing (ok : Int) (r : OStream × WriteEnd)
    (h : r.2 ≠ WriteEnd.foreign) :
    write_frame ok r = WriteOutcome.returned
      (if decide (r.2 = WriteEnd.failure) then ⟨0, r.1, true⟩ else ⟨ok, r.1, false⟩) := by
  obtain ⟨s, e⟩ := r
  cases e <;> simp [write_frame] at h ⊢

/-- Over a stream buffer that does not throw, `std_iostream_write_byte` always returns, with
the result of the callback over the refusing sink. -/
theorem std_iostream_write_byte_with_refusing (st : OStream) (byte : Int) :
    std_iostream_write_byte_with false st byte =
      WriteOutcome.returned (std_iostream_write_byte st byte) := by
  exact write_frame_refusing 1 _ (ostream_write_with_refusing_end st _)

/-- Over a stream buffer that does not throw, `std_iostream_write_bytes` always returns, with
the result of the callback over the refusing sink. -/
theorem std_iostream_write_bytes_with_refusing (st : OStream) (data : List Nat)
    (size nmemb : Nat) :
    std_iostream_write_bytes_with false st data size nmemb =
      WriteOutcome.returned (std_iostream_write_bytes st data size nmemb) := by
  exact write_frame_refusing _ _ (ostream_write_with_refusing_end st _)

/-- Over a throwing stream buffer, a write callback is left by an exception that its handler
does not catch exactly when `badbit` is in the exception mask of a good channel whose sink has
no room for the bytes. -/
theorem write_frame_escapes_iff (ok : Int) (st : OStream) (bytes : List Nat) :
    (∃ s, write_frame ok (ostream_write_with true st bytes) = WriteOutcome.escaped s) ↔
      (st.ios.good = true ∧ st.room < bytes.length ∧ st.ios.exc_bad = true) := by
  have hexc : (st.ios.setstate false false true).exc_bad = st.ios.exc_bad := rfl
  unfold ostream_write_with write_frame
  by_cases hg : st.ios.good = true
  · by_cases hl : bytes.length ≤ st.room
    · simp [hg, hl]
    · cases he : st.ios.exc_bad <;> simp [hg, hl, hexc, he, Nat.lt_of_not_le hl]
  · by_cases hb : st.ios.badbit = true
    · cases hr : (st.ios.setstate false true false).raises <;> simp [hg, hb, hr]
    · simp [hg, hb]

/-- A byte written through a throwing stream buffer to a full sink, with `badbit` in the
exception mask: the exception leaves `std_iostream_write_byte`, and `badbit` is set. -/
theorem std_iostream_write_byte_with_escapes :
    std_iostream_write_byte_with true fx_full_masked 65 =
      WriteOutcome.escaped ⟨[], 0, ⟨false, false, true, false, false, true⟩⟩ := by
  decide

/-! ## Results on the byte-iostream callbacks -/

/-- C5: for a unit size of at least 1, a requested count below 2^31 and a channel that is
good on entry (no end-of-input flag, no failure latched) with `r` bytes remaining, a call of
`std_iostream_read_bytes` during which no fault is raised returns `min n (r / s)`, the number
of whole units; with `s = 4`, `n = 3`, `r = 10` it returns 2. -/
theorem std_iostream_read_bytes_whole_units (st : IStream) (buf : List Nat) (size nmemb : Nat)
    (hs : 1 ≤ size) (hn : nmemb < 2 ^ 31) (hgood : st.ios.good = true)
    (hno : (std_iostream_read_bytes st buf size nmemb).raised = false) :
    (std_iostream_read_bytes st buf size nmemb).ret =
      ((min nmemb (st.data.length / size) : Nat) : Int) ∧
    (std_iostream_read_bytes fx_ten (List.replicate 12 0) 4 3).ret = 2 := by
  refine ⟨?_, by decide⟩
  have heof : st.ios.eof = false := IosState.eof_of_good hgood
  simp only [std_iostream_read_bytes, heof, Bool.false_eq_true, if_false] at hno ⊢
  rw [(read_loop_good size hs nmemb 0 st buf hgood hno).1, Nat.zero_add]
  apply to_int_of_lt
  have : min nmemb (st.data.length / size) ≤ nmemb := Nat.min_le_left _ _
  omega

/-- C5, at unit size 4, count 3 and a channel with ten bytes. -/
theorem std_iostream_read_bytes_whole_units_witness :
    (std_iostream_read_bytes fx_ten (List.replicate 12 0) 4 3).ret =
      ((min 3 (fx_ten.data.length / 4) : Nat) : Int) ∧
    (std_iostream_read_bytes fx_ten (List.replicate 12 0) 4 3).ret = 2 :=
  std_iostream_read_bytes_whole_units fx_ten (List.replicate 12 0) 4 3 (by decide) (by decide)
    (by decide) (by decide)

/-- C6 (as amended): for every unit size, every channel state and every requested unit count
below 2^31, a call of `std_iostream_read_bytes` during which no fault is raised returns a unit
count between 0 and the requested count, hence not -1. -/
theorem std_iostream_read_bytes_no_fault (st : IStream) (buf : List Nat) (size nmemb : Nat)
    (hn : nmemb < 2 ^ 31)
    (hno : (std_iostream_read_bytes st buf size nmemb).raised = false) :
    (std_iostream_read_bytes st buf size nmemb).ret ≠ -1 ∧
    0 ≤ (std_iostream_read_bytes st buf size nmemb).ret ∧
    (std_iostream_read_bytes st buf size nmemb).ret ≤ (nmemb : Int) := by
  unfold std_iostream_read_bytes at hno ⊢
  split
  · simp
  · rename_i heof
    simp only [heof, if_false] at hno
    obtain ⟨c, _, hc2, hc3⟩ := read_loop_bound size nmemb 0 st buf hno
    rw [hc3, to_int_of_lt (by omega)]
    omega

/-- C6 (as amended), at the ten-byte channel. -/
theorem std_iostream_read_bytes_no_fault_witness :
    (std_iostream_read_bytes fx_ten (List.replicate 12 0) 4 3).ret ≠ -1 ∧
    0 ≤ (std_iostream_read_bytes fx_ten (List.replicate 12 0) 4 3).ret ∧
    (std_iostream_read_bytes fx_ten (List.replicate 12 0) 4 3).ret ≤ ((3 : Nat) : Int) :=
  std_iostream_read_bytes_no_fault fx_ten (List.replicate 12 0) 4 3 (by decide) (by decide)

/-- C6, refuted as stated: a request for 2^32 - 1 units of one byte on a good channel holding
that many bytes reads every unit, raises no fault, and the count converted to `int` is -1; so
does a request for 2^32 - 1 units of size 0 on an empty good channel. -/
theorem std_iostream_read_bytes_minus_one_without_fault :
    ((std_iostream_read_bytes ⟨List.replicate 4294967295 0, IosState.fresh⟩
        (List.replicate 4294967295 0) 1 4294967295).raised = false ∧
      (std_iostream_read_bytes ⟨List.replicate 4294967295 0, IosState.fresh⟩
        (List.replicate 4294967295 0) 1 4294967295).ret = -1) ∧
    ((std_iostream_read_bytes ⟨[], IosState.fresh⟩ [] 0 4294967295).raised = false ∧
      (std_iostream_read_bytes ⟨[], IosState.fresh⟩ [] 0 4294967295).ret = -1) := by
  have hto : to_int (0 + 4294967295) = -1 := by decide
  constructor
  · obtain ⟨h1, h2, _⟩ := read_loop_full 1 4294967295 0
      ⟨List.replicate 4294967295 0, IosState.fresh⟩ (List.replicate 4294967295 0) rfl
      (by simp only [List.length_replicate]; omega)
    have heof : IosState.fresh.eof = false := rfl
    simp only [std_iostream_read_bytes, heof, Bool.false_eq_true, if_false]
    exact ⟨h1, h2.trans hto⟩
  · obtain ⟨h1, h2, _⟩ := read_loop_full 0 4294967295 0 ⟨[], IosState.fresh⟩ [] rfl
      (by simp)
    have heof : IosState.fresh.eof = false := rfl
    simp only [std_iostream_read_bytes, heof, Bool.false_eq_true, if_false]
    exact ⟨h1, h2.trans hto⟩

/-- C7: when the channel reports end-of-input on entry (`eof()` is true),
`std_iostream_read_bytes` returns 0 and leaves the channel (position and status) and the
destination buffer unchanged, raising nothing, for every unit size and count. -/
theorem std_iostream_read_bytes_at_eof (st : IStream) (buf : List Nat) (size nmemb : Nat)
    (heof : st.ios.eof = true) :
    (std_iostream_read_bytes st buf size nmemb).ret = 0 ∧
    (std_iostream_read_bytes st buf size nmemb).stream = st ∧
    (std_iostream_read_bytes st buf size nmemb).buffer = buf ∧
    (std_iostream_read_bytes st buf size nmemb).raised = false := by
  simp [std_iostream_read_bytes, heof]

/-- C7, at a channel whose end-of-input flag is set. -/
theorem std_iostream_read_bytes_at_eof_witness :
    fx_eof.ios.eof = true ∧
    (std_iostream_read_bytes fx_eof [1, 2, 3, 4] 2 2).ret = 0 ∧
    (std_iostream_read_bytes fx_eof [1, 2, 3, 4] 2 2).stream = fx_eof ∧
    (std_iostream_read_bytes fx_eof [1, 2, 3, 4] 2 2).buffer = [1, 2, 3, 4] ∧
    (std_iostream_read_bytes fx_eof [1, 2, 3, 4] 2 2).raised = false :=
  ⟨rfl, std_iostream_read_bytes_at_eof fx_eof [1, 2, 3, 4] 2 2 rfl⟩

/-- C8 (as amended): `std_iostream_read_eof` returns 1 exactly when the end-of-input flag of
the channel is set and 0 otherwise. After a fault-free `std_iostream_read_bytes` on a good
channel with positive unit size the flag is set exactly when the request ran past the last
byte; when the request consumed exactly the remaining bytes the channel is exhausted and
`std_iostream_read_eof` still returns 0. -/
theorem std_iostream_read_eof_flag (st : IStream) (buf : List Nat) (size nmemb : Nat)
    (hs : 1 ≤ size) (hgood : st.ios.good = true)
    (hno : (std_iostream_read_bytes st buf size nmemb).raised = false) :
    (∀ c : IStream, (std_iostream_read_eof c = 1 ↔ c.ios.eofbit = true) ∧
      (std_iostream_read_eof c = 0 ↔ c.ios.eofbit = false)) ∧
    (std_iostream_read_eof (std_iostream_read_bytes st buf size nmemb).stream = 1 ↔
      st.data.length < nmemb * size) ∧
    (nmemb * size = st.data.length →
      (std_iostream_read_bytes st buf size nmemb).stream.data = [] ∧
      std_iostream_read_eof (std_iostream_read_bytes st buf size nmemb).stream = 0) := by
  have hflag : ∀ c : IStream, (std_iostream_read_eof c = 1 ↔ c.ios.eofbit = true) ∧
      (std_iostream_read_eof c = 0 ↔ c.ios.eofbit = false) := by
    intro c
    cases h : c.ios.eofbit <;> simp [std_iostream_read_eof, IosState.eof, h]
  have heofbit : st.ios.eofbit = false := IosState.eof_of_good hgood
  have heof : st.ios.eof = false := heofbit
  simp only [std_iostream_read_bytes, heof, Bool.false_eq_true, if_false] at hno ⊢
  have hstream := (read_loop_good size hs nmemb 0 st buf hgood hno).2
  refine ⟨hflag, ?_, ?_⟩
  · rw [(hflag _).1, hstream]
    by_cases hle : nmemb * size ≤ st.data.length
    · simp [hle, heofbit, Nat.not_lt.mpr hle]
    · simp [hle, IosState.setstate, Nat.lt_of_not_le hle]
  · intro heq
    rw [(hflag _).2, hstream]
    simp [heq, heofbit]

/-- C8 (as amended), at a channel with one byte left and a request for that byte. -/
theorem std_iostream_read_eof_flag_witness :
    (∀ c : IStream, (std_iostream_read_eof c = 1 ↔ c.ios.eofbit = true) ∧
      (std_iostream_read_eof c = 0 ↔ c.ios.eofbit = false)) ∧
    (std_iostream_read_eof (std_iostream_read_bytes fx_one [0] 1 1).stream = 1 ↔
      fx_one.data.length < 1 * 1) ∧
    (1 * 1 = fx_one.data.length →
      (std_iostream_read_bytes fx_one [0] 1 1).stream.data = [] ∧
      std_iostream_read_eof (std_iostream_read_bytes fx_one [0] 1 1).stream = 0) :=
  std_iostream_read_eof_flag fx_one [0] 1 1 (by decide) (by decide) (by decide)

/-- C8, refuted as stated: after the last byte of a channel has been consumed by a fully
satisfied read (one unit requested, one returned, no fault), no byte remains and
`std_iostream_read_eof` returns 0. -/
theorem std_iostream_read_eof_zero_when_exhausted :
    (std_iostream_read_bytes fx_one [0] 1 1).ret = 1 ∧
    (std_iostream_read_bytes fx_one [0] 1 1).raised = false ∧
    (std_iostream_read_bytes fx_one [0] 1 1).stream.data = [] ∧
    std_iostream_read_eof (std_iostream_read_bytes fx_one [0] 1 1).stream = 0 := by
  decide

/-- C9, the code at the failing input: on a channel whose sink takes no further byte and
that raises no exceptions, `std_iostream_write_byte` returns 1 although the byte is not
appended and the channel has entered the failed state. -/
theorem std_iostream_write_byte_silent_failure :
    (std_iostream_write_byte fx_full 65).ret = 1 ∧
    (std_iostream_write_byte fx_full 65).stream.out = fx_full.out ∧
    (std_iostream_write_byte fx_full 65).stream.ios.fail = true ∧
    (std_iostream_write_byte fx_full 65).raised = false := by
  decide

/-- C10 (as amended): when `size * nmemb` is below 2^31, `std_iostream_write_bytes` returns 0
if the channel raises a fault, and on a good channel whose sink accepts the whole block it
appends the `size * nmemb` bytes and returns `size * nmemb`. -/
theorem std_iostream_write_bytes_count (st : OStream) (data : List Nat) (size nmemb : Nat)
    (hsmall : size * nmemb < 2 ^ 31) :
    ((std_iostream_write_bytes st data size nmemb).raised = true →
      (std_iostream_write_bytes st data size nmemb).ret = 0) ∧
    (st.ios.good = true → size * nmemb ≤ st.room → size * nmemb ≤ data.length →
      (std_iostream_write_bytes st data size nmemb).ret = ((size * nmemb : Nat) : Int) ∧
      (std_iostream_write_bytes st data size nmemb).stream.out =
        st.out ++ data.take (size * nmemb) ∧
      (std_iostream_write_bytes st data size nmemb).raised = false) := by
  have hcount : (nmemb * size) % 2 ^ 64 = size * nmemb := by
    rw [Nat.mul_comm nmemb size]
    exact Nat.mod_eq_of_lt (by omega)
  unfold std_iostream_write_bytes
  rw [hcount]
  constructor
  · exact write_block_raised st data _
  · intro hg hroom hlen
    obtain ⟨h1, h2, h3⟩ := write_block_whole st data _ hg hroom hlen
    exact ⟨h1.trans (to_int_of_lt hsmall), h2, h3⟩

/-- C10 (as amended), at a block of two units of two bytes. -/
theorem std_iostream_write_bytes_count_witness :
    (2 * 2 < 2 ^ 31) ∧
    ((std_iostream_write_bytes fx_sink [1, 2, 3, 4] 2 2).raised = true →
      (std_iostream_write_bytes fx_sink [1, 2, 3, 4] 2 2).ret = 0) ∧
    (fx_sink.ios.good = true → 2 * 2 ≤ fx_sink.room → 2 * 2 ≤ [1, 2, 3, 4].length →
      (std_iostream_write_bytes fx_sink [1, 2, 3, 4] 2 2).ret = ((2 * 2 : Nat) : Int) ∧
      (std_iostream_write_bytes fx_sink [1, 2, 3, 4] 2 2).stream.out =
        fx_sink.out ++ [1, 2, 3, 4].take (2 * 2) ∧
      (std_iostream_write_bytes fx_sink [1, 2, 3, 4] 2 2).raised = false) :=
  ⟨by decide, std_iostream_write_bytes_count fx_sink [1, 2, 3, 4] 2 2 (by decide)⟩

/-- C10, refuted as stated: a block of 65536 units of 65536 bytes is accepted whole by a good
channel (2^32 bytes are appended, no fault), and the returned `int` is 0. -/
theorem std_iostream_write_bytes_truncated :
    (std_iostream_write_bytes ⟨[], 4294967296, IosState.fresh⟩
      (List.replicate 4294967296 0) 65536 65536).ret = 0 ∧
    (std_iostream_write_bytes ⟨[], 4294967296, IosState.fresh⟩
      (List.replicate 4294967296 0) 65536 65536).stream.out.length = 65536 * 65536 ∧
    (std_iostream_write_bytes ⟨[], 4294967296, IosState.fresh⟩
      (List.replicate 4294967296 0) 65536 65536).raised = false := by
  have hcount : (65536 * 65536) % 2 ^ 64 = 4294967296 := by decide
  unfold std_iostream_write_bytes
  rw [hcount]
  obtain ⟨h1, h2, h3⟩ := write_block_whole ⟨[], 4294967296, IosState.fresh⟩
    (List.replicate 4294967296 0) 4294967296 rfl (Nat.le_refl _)
    (by rw [List.length_replicate])
  refine ⟨h1.trans (by decide), ?_, h3⟩
  rw [h2, List.length_append, List.length_take, List.length_replicate]
  decide

/-! ## Lemmas on the heap of wrappers -/

theorem held_append (l : List CObjWrapper) (w : CObjWrapper) :
    held (l ++ [w]) = held l + owned w.c_obj_ := by
  induction l with
  | nil => simp [held]
  | cons a l ih => simp [held, ih, add_assoc]

theorem held_set (l : List CObjWrapper) (i : Nat) (w : CObjWrapper) (h : i < l.length) :
    held (l.set i w) + owned ((l[i]?).getD ⟨none⟩).c_obj_ = held l + owned w.c_obj_ := by
  induction l generalizing i with
  | nil => simp at h
  | cons a l ih =>
    cases i with
    | zero =>
      simp only [List.set_cons_zero, held, List.getElem?_cons_zero, Option.getD_some]
      abel
    | succ i =>
      simp only [List.set_cons_succ, held, List.getElem?_cons_succ]
      have h2 := ih i (by simpa using h)
      rw [add_assoc, h2, add_assoc]

theorem held_eraseIdx (l : List CObjWrapper) (i : Nat) (h : i < l.length) :
    held (l.eraseIdx i) + owned ((l[i]?).getD ⟨none⟩).c_obj_ = held l := by
  induction l generalizing i with
  | nil => simp at h
  | cons a l ih =>
    cases i with
    | zero =>
      simp only [List.eraseIdx_cons_zero, held, List.getElem?_cons_zero, Option.getD_some]
      abel
    | succ i =>
      simp only [List.eraseIdx_cons_succ, held, List.getElem?_cons_succ]
      have h2 := ih i (by simpa using h)
      rw [add_assoc, h2]

theorem Heap.obj_put (st : Heap) (i j : Nat) (w : CObjWrapper) :
    (st.put i w).obj j = if i = j ∧ i < st.objs.length then w else st.obj j := by
  unfold Heap.put Heap.obj
  simp only [List.getElem?_set]
  by_cases hij : i = j
  · subst hij
    by_cases hi : i < st.objs.length
    · simp [hi]
    · have : st.objs[i]? = none := by
        rw [List.getElem?_eq_none_iff]; omega
      simp [hi, this]
  · simp [hij]

theorem alloc_new_handle (st : Heap) (ok : Bool) : Alloc st (st.new_handle ok) := by
  cases ok
  · simp [Alloc, Heap.new_handle, owned]
  · simp only [Alloc, Heap.new_handle, owned, if_true, true_and, Multiset.range_succ]
    rw [← Multiset.singleton_add, add_comm]

theorem alloc_none (st : Heap) : Alloc st (none, st) := by
  simp [Alloc, owned]

theorem alloc_clone (st : Heap) (src : Option Handle) (ok : Bool) :
    Alloc st (st.clone src ok) := by
  cases src with
  | none => exact alloc_none st
  | some h => exact alloc_new_handle st ok

theorem alloc_copy_source (g : Bool) (st : Heap) (other : Nat) (ok : Bool) :
    Alloc st (copy_source g st other ok) := by
  unfold copy_source
  split
  · split
    · exact alloc_clone _ _ _
    · exact alloc_none st
  · exact alloc_clone _ _ _

theorem alloc_free_left {st : Heap} {p : Option Handle} {r : Option Handle × Heap}
    (h : Alloc (st.free p) r) :
    r.2.frees = (st.free p).frees ∧ r.2.objs = st.objs ∧
      Multiset.range r.2.next = Multiset.range st.next + owned r.1 := by
  obtain ⟨h1, h2, h3⟩ := h
  refine ⟨h1, ?_, ?_⟩
  · rw [h2]; cases p <;> rfl
  · rw [h3]; cases p <;> rfl

theorem Heap.free_frees (st : Heap) (p : Option Handle) :
    ((st.free p).frees : Multiset Handle) = (st.frees : Multiset Handle) + owned p := by
  cases p with
  | none => simp [Heap.free, owned]
  | some h =>
    simp only [Heap.free, owned]
    rw [← Multiset.cons_coe, ← Multiset.singleton_add, add_comm]

theorem owned_none : owned none = 0 := rfl

theorem held_set_obj (st : Heap) (i : Nat) (w : CObjWrapper) (h : i < st.objs.length) :
    held (st.objs.set i w) + owned (st.obj i).c_obj_ = held st.objs + owned w.c_obj_ :=
  held_set st.objs i w h

theorem Heap.free_objs (st : Heap) (p : Option Handle) : (st.free p).objs = st.objs := by
  cases p <;> rfl

theorem Heap.free_next (st : Heap) (p : Option Handle) : (st.free p).next = st.next := by
  cases p <;> rfl

theorem getD_set_self (l : List CObjWrapper) (i : Nat) (w : CObjWrapper) (h : i < l.length) :
    ((l.set i w)[i]?).getD ⟨none⟩ = w := by
  simp [List.getElem?_set, h]

theorem getD_set_set (l : List CObjWrapper) (i j : Nat) (w : CObjWrapper) (h : i < l.length) :
    (((l.set i w).set j w)[i]?).getD ⟨none⟩ = w := by
  by_cases hij : j = i
  · subst hij; simp [List.getElem?_set, h]
  · simp [List.getElem?_set, h, hij]

/-! ## The ownership invariant is kept by every operation -/

theorem balanced_alloc_none {st : Heap} {r : Option Handle × Heap} (hb : Balanced st)
    (ha : Alloc st r) (hn : r.1 = none) : Balanced r.2 := by
  obtain ⟨h1, h2, h3⟩ := ha
  unfold Balanced Heap.mass at hb ⊢
  rw [h1, h2, h3, hn, hb]
  simp [owned]

theorem balanced_push {st : Heap} {r : Option Handle × Heap} (hb : Balanced st)
    (ha : Alloc st r) : Balanced (r.2.push ⟨r.1⟩) := by
  obtain ⟨h1, h2, h3⟩ := ha
  unfold Balanced Heap.mass at hb ⊢
  simp only [Heap.push]
  rw [h1, h2, h3, held_append, ← add_assoc, hb]

theorem balanced_dtor {st : Heap} {i : Nat} (hb : Balanced st) (hi : i < st.objs.length) :
    Balanced (dtor st i) := by
  unfold Balanced Heap.mass at hb ⊢
  simp only [dtor, Heap.free_objs, Heap.free_next, Heap.free_frees, Heap.obj]
  rw [add_assoc, add_comm (owned _), held_eraseIdx st.objs i hi, hb]

theorem balanced_move_ctor {st : Heap} {i : Nat} (hb : Balanced st) (hi : i < st.objs.length) :
    Balanced (move_ctor st i) := by
  unfold Balanced Heap.mass at hb ⊢
  simp only [move_ctor, Heap.release, Heap.push, Heap.put, CObjWrapper.release, held_append]
  have h1 := held_set_obj st i ⟨none⟩ hi
  rw [h1, owned_none, add_zero, hb]

theorem balanced_move_assign {c : HandleClass} {st : Heap} {dst src : Nat}
    (hc : c.frees_on_move_assign = true) (hb : Balanced st) (hd : dst < st.objs.length)
    (hs : src < st.objs.length) : Balanced (move_assign c st dst src) := by
  unfold Balanced Heap.mass at hb ⊢
  simp only [move_assign, hc, if_true, CObjWrapper.move_assign, Heap.release, Heap.put,
    CObjWrapper.release, Heap.obj, Heap.free_objs, Heap.free_next, Heap.free_frees]
  have hA := held_set st.objs dst ⟨none⟩ hd
  have hB := held_set (st.objs.set dst ⟨none⟩) src ⟨none⟩ (by simpa using hs)
  have hC := held_set ((st.objs.set dst ⟨none⟩).set src ⟨none⟩) dst
    ⟨(((st.objs.set dst ⟨none⟩)[src]?).getD ⟨none⟩).c_obj_⟩ (by simpa using hd)
  rw [getD_set_set st.objs dst src ⟨none⟩ hd] at hC
  simp only [owned_none, add_zero] at hA hB hC
  rw [hC, hB, add_assoc, add_comm (owned _), hA, hb]

theorem balanced_copy_assign {c : HandleClass} {st : Heap} {dst src : Nat} {ok : Bool}
    {o : Outcome} (hb : Balanced st) (hd : dst < st.objs.length)
    (ho : copy_assign c st dst src ok = some o) : Balanced o.heap := by
  unfold copy_assign at ho
  split at ho
  · exact absurd ho (by simp)
  · rename_i g _
    split at ho
    · simp only [Option.some.injEq] at ho
      subst ho
      obtain ⟨h1, h2, h3⟩ := alloc_free_left
        (alloc_copy_source g (st.free (st.obj dst).c_obj_) src ok)
      generalize copy_source g (st.free (st.obj dst).c_obj_) src ok = r at h1 h2 h3 ⊢
      unfold Balanced Heap.mass at hb ⊢
      simp only [Heap.put]
      have hA := held_set_obj st dst ⟨r.1⟩ hd
      rw [h1, h2, h3, Heap.free_frees, ← hb, add_assoc, add_comm (owned _), hA]
      abel
    · simp only [Option.some.injEq] at ho
      subst ho
      exact hb

theorem balanced_copy_ctor {c : HandleClass} {st : Heap} {src : Nat} {ok : Bool}
    {o : Outcome} (hb : Balanced st) (ho : copy_ctor c st src ok = some o) :
    Balanced o.heap := by
  unfold copy_ctor at ho
  split at ho
  · exact absurd ho (by simp)
  · rename_i g _
    have ha := alloc_copy_source g st src ok
    dsimp only at ho
    by_cases hthrow : (if g = true then (st.obj src).is_valid && (copy_source g st src ok).1.isNone
        else (copy_source g st src ok).1.isNone) = true
    · rw [if_pos hthrow] at ho
      simp only [Option.some.injEq] at ho
      subst ho
      apply balanced_alloc_none hb ha
      cases g
      · simpa using hthrow
      · simp only [if_true, Bool.and_eq_true] at hthrow
        simpa using hthrow.2
    · rw [if_neg hthrow] at ho
      simp only [Option.some.injEq] at ho
      subst ho
      exact balanced_push hb ha

theorem balanced_ctor_checked {st : Heap} (hb : Balanced st) (ok : Bool) (what : String) :
    Balanced (ctor_checked st ok what).heap := by
  unfold ctor_checked
  have ha := alloc_new_handle st ok
  dsimp only
  split
  · rename_i hn
    exact balanced_alloc_none hb ha (by simpa using hn)
  · exact balanced_push hb ha

theorem balanced_step {c : HandleClass} (hc : c.frees_on_move_assign = true) {st : Heap}
    (hb : Balanced st) (op : Op) : Balanced (step c st op) := by
  cases op with
  | construct ok => exact balanced_ctor_checked hb ok _
  | construct_unchecked ok => exact balanced_push hb (alloc_new_handle st ok)
  | construct_empty => exact balanced_push hb (alloc_none st)
  | copy_construct src ok =>
    simp only [step]
    split
    · split
      · exact hb
      · rename_i o ho; exact balanced_copy_ctor hb ho
    · exact hb
  | copy_assign dst src ok =>
    simp only [step]
    split
    · rename_i hlt
      split
      · exact hb
      · rename_i o ho; exact balanced_copy_assign hb hlt.1 ho
    · exact hb
  | move_construct src =>
    simp only [step]
    split
    · rename_i hlt; exact balanced_move_ctor hb hlt
    · exact hb
  | move_assign dst src =>
    simp only [step]
    split
    · rename_i hlt; exact balanced_move_assign hc hb hlt.1 hlt.2
    · exact hb
  | destroy i =>
    simp only [step]
    split
    · rename_i hlt; exact balanced_dtor hb hlt
    · exact hb

theorem balanced_run {c : HandleClass} (hc : c.frees_on_move_assign = true) (ops : List Op) :
    ∀ st : Heap, Balanced st → Balanced (run c st ops) := by
  induction ops with
  | nil => intro st hb; exact hb
  | cons op ops ih => intro st hb; exact ih _ (balanced_step hc hb op)

theorem balanced_init : Balanced Heap.init := by
  simp [Balanced, Heap.mass, Heap.init, held]

theorem Balanced.frees_nodup {st : Heap} (hb : Balanced st) : st.frees.Nodup := by
  have h1 : (st.frees : Multiset Handle) ≤ Multiset.range st.next := by
    rw [← hb]; exact Multiset.le_add_right _ _
  exact Multiset.coe_nodup.mp (Multiset.nodup_of_le h1 (Multiset.nodup_range _))

theorem Balanced.count_eq {st : Heap} (hb : Balanced st) (he : st.objs = []) :
    st.next = st.frees.length := by
  unfold Balanced Heap.mass at hb
  rw [he] at hb
  simp only [held, add_zero] at hb
  have := congrArg Multiset.card hb
  simpa using this.symm

theorem Heap.free_obj (st : Heap) (p : Option Handle) (i : Nat) :
    (st.free p).obj i = st.obj i := by
  cases p <;> rfl

theorem Heap.put_length (st : Heap) (i : Nat) (w : CObjWrapper) :
    (st.put i w).objs.length = st.objs.length := by
  simp [Heap.put]

theorem Heap.push_obj_lt (st : Heap) (w : CObjWrapper) (i : Nat) (h : i < st.objs.length) :
    (st.push w).obj i = st.obj i := by
  simp [Heap.push, Heap.obj, List.getElem?_append_left h]

theorem Heap.push_obj_length (st : Heap) (w : CObjWrapper) :
    (st.push w).obj st.objs.length = w := by
  simp [Heap.push, Heap.obj]

theorem dtor_frees_of_empty {st : Heap} {i : Nat} (h : st.obj i = ⟨none⟩) :
    (dtor st i).frees = st.frees := by
  simp [dtor, h, Heap.free]

/-! ## Results on the ownership wrappers -/

/-- C11: for a wrapper that holds handle `h`, `release()` returns `h` and leaves the wrapper
empty (`c_obj()` null, `is_valid()` false) without freeing or allocating anything; a second
`release()` returns null and leaves the wrapper empty. -/
theorem release_returns_handle_and_empties (st : Heap) (i : Nat) (h : Handle)
    (hi : i < st.objs.length) (hh : (st.obj i).c_obj = some h) :
    ((st.obj i).release.1 = some h ∧ (st.obj i).release.2.c_obj = none ∧
      (st.obj i).release.2.is_valid = false ∧
      (st.obj i).release.2.release = (none, (st.obj i).release.2)) ∧
    ((st.release i).1 = some h ∧ ((st.release i).2.obj i).c_obj = none ∧
      ((st.release i).2.obj i).is_valid = false ∧
      (st.release i).2.frees = st.frees ∧ (st.release i).2.next = st.next) ∧
    (((st.release i).2.release i).1 = none ∧
      ((st.release i).2.release i).2 = (st.release i).2) := by
  have hput : (st.put i ⟨none⟩).obj i = ⟨none⟩ := by
    rw [Heap.obj_put]; simp [hi]
  have hput2 : (st.put i ⟨none⟩).put i ⟨none⟩ = st.put i ⟨none⟩ := by
    simp [Heap.put]
  refine ⟨⟨hh, rfl, rfl, rfl⟩, ⟨hh, ?_, ?_, rfl, rfl⟩, ?_, ?_⟩
  · simp only [Heap.release, CObjWrapper.release, hput]; rfl
  · simp only [Heap.release, CObjWrapper.release, hput]; rfl
  · simp only [Heap.release, CObjWrapper.release, hput]
  · simp only [Heap.release, CObjWrapper.release, hput2]

/-- C11, at the wrapper of handle 1 in a heap of two wrappers. -/
theorem release_returns_handle_and_empties_witness :
    ((fx_two.obj 1).release.1 = some 1 ∧ (fx_two.obj 1).release.2.c_obj = none ∧
      (fx_two.obj 1).release.2.is_valid = false ∧
      (fx_two.obj 1).release.2.release = (none, (fx_two.obj 1).release.2)) ∧
    ((fx_two.release 1).1 = some 1 ∧ ((fx_two.release 1).2.obj 1).c_obj = none ∧
      ((fx_two.release 1).2.obj 1).is_valid = false ∧
      (fx_two.release 1).2.frees = fx_two.frees ∧ (fx_two.release 1).2.next = fx_two.next) ∧
    (((fx_two.release 1).2.release 1).1 = none ∧
      ((fx_two.release 1).2.release 1).2 = (fx_two.release 1).2) :=
  release_returns_handle_and_empties fx_two 1 1 (by decide) rfl

/-- C12: for every handle class, move-assignment and move-construction from a distinct source
that holds `h` (the destination not holding `h` itself) leave the destination holding exactly
`h` and the source empty; no handle is allocated (no clone), and `h` is not passed to a free
primitive. -/
theorem move_transfers_handle (c : HandleClass) (st : Heap) (this other : Nat) (h : Handle)
    (hthis : this < st.objs.length) (hother : other < st.objs.length) (hne : this ≠ other)
    (hsrc : (st.obj other).c_obj = some h) (hdst : (st.obj this).c_obj ≠ some h) :
    (((move_assign c st this other).obj this).c_obj = some h ∧
      ((move_assign c st this other).obj other).c_obj = none ∧
      (move_assign c st this other).next = st.next ∧
      (move_assign c st this other).frees.count h = st.frees.count h) ∧
    (((move_ctor st other).obj st.objs.length).c_obj = some h ∧
      ((move_ctor st other).obj other).c_obj = none ∧
      (move_ctor st other).objs.length = st.objs.length + 1 ∧
      (move_ctor st other).next = st.next ∧
      (move_ctor st other).frees = st.frees) := by
  have hne2 : ¬ other = this := fun e => hne e.symm
  have hnone : ∀ s : Heap, other < s.objs.length →
      ((s.put other ⟨none⟩).obj other).c_obj = none := by
    intro s hs
    rw [Heap.obj_put]
    simp only [hs, and_self, if_true]
    rfl
  constructor
  · cases hfm : c.frees_on_move_assign
    · simp only [move_assign, hfm, Bool.false_eq_true, if_false, CObjWrapper.move_assign,
        Heap.release, CObjWrapper.release]
      refine ⟨?_, ?_, rfl, rfl⟩
      · rw [Heap.obj_put]
        simp only [Heap.put_length, hthis, and_self, if_true]
        exact hsrc
      · rw [Heap.obj_put, if_neg (by simp [hne])]
        exact hnone st hother
    · simp only [move_assign, hfm, if_true, CObjWrapper.move_assign, Heap.release,
        CObjWrapper.release]
      have hobj : ((st.free (st.obj this).c_obj_).put this ⟨none⟩).obj other = st.obj other := by
        rw [Heap.obj_put, if_neg (by simp [hne]), Heap.free_obj]
      refine ⟨?_, ?_, ?_, ?_⟩
      · rw [Heap.obj_put]
        simp only [Heap.put_length, Heap.free_objs, hthis, and_self, if_true, hobj]
        exact hsrc
      · rw [Heap.obj_put, if_neg (by simp [hne])]
        exact hnone _ (by rw [Heap.put_length, Heap.free_objs]; exact hother)
      · simp [Heap.put, Heap.free_next]
      · simp only [Heap.put]
        cases hd : (st.obj this).c_obj_ with
        | none => rfl
        | some d =>
          have hdh : d ≠ h := by
            intro e; apply hdst; rw [← e]; exact hd
          simp [Heap.free, List.count_cons, hdh]
  · simp only [move_ctor, Heap.release, CObjWrapper.release]
    refine ⟨?_, ?_, ?_, rfl, rfl⟩
    · have := Heap.push_obj_length (st.put other ⟨none⟩) ⟨(st.obj other).c_obj_⟩
      rw [Heap.put_length] at this
      rw [this]; exact hsrc
    · rw [Heap.push_obj_lt _ _ _ (by rw [Heap.put_length]; exact hother)]
      exact hnone st hother
    · simp [Heap.push, Heap.put]

/-- C12, at the two-wrapper heap: the wrapper of handle 0 is move-assigned from, and a new
wrapper move-constructed from, the wrapper of handle 1. -/
theorem move_transfers_handle_witness :
    (((move_assign HandleClass.Node fx_two 0 1).obj 0).c_obj = some 1 ∧
      ((move_assign HandleClass.Node fx_two 0 1).obj 1).c_obj = none ∧
      (move_assign HandleClass.Node fx_two 0 1).next = fx_two.next ∧
      (move_assign HandleClass.Node fx_two 0 1).frees.count 1 = fx_two.frees.count 1) ∧
    (((move_ctor fx_two 1).obj fx_two.objs.length).c_obj = some 1 ∧
      ((move_ctor fx_two 1).obj 1).c_obj = none ∧
      (move_ctor fx_two 1).objs.length = fx_two.objs.length + 1 ∧
      (move_ctor fx_two 1).next = fx_two.next ∧
      (move_ctor fx_two 1).frees = fx_two.frees) :=
  move_transfers_handle HandleClass.Node fx_two 0 1 1 (by decide) (by decide) (by decide) rfl
    (by decide)

/-- C13: over the instrumented engine, after every finite sequence of `Node` constructions
(checked, unchecked or empty), copy-constructions, copy-assignments, move-constructions,
move-assignments (self-assignment included) and destructions, no handle has been freed twice,
every freed handle had been allocated, and once no `Node` object is alive the number of
allocations equals the number of frees. -/
theorem node_handles_freed_exactly_once (ops : List Op) :
    (run HandleClass.Node Heap.init ops).frees.Nodup ∧
    (∀ h ∈ (run HandleClass.Node Heap.init ops).frees,
      h < (run HandleClass.Node Heap.init ops).next) ∧
    ((run HandleClass.Node Heap.init ops).objs = [] →
      (run HandleClass.Node Heap.init ops).next =
        (run HandleClass.Node Heap.init ops).frees.length) := by
  have hb : Balanced (run HandleClass.Node Heap.init ops) :=
    @balanced_run HandleClass.Node rfl ops Heap.init balanced_init
  refine ⟨hb.frees_nodup, ?_, hb.count_eq⟩
  intro h hh
  have h1 : h ∈ Multiset.range (run HandleClass.Node Heap.init ops).next := by
    rw [← hb]
    exact Multiset.mem_add.mpr (Or.inl (Multiset.mem_coe.mpr hh))
  exact Multiset.mem_range.mp h1

/-- C14, the code at the failing input: two worlds are constructed, the first is
move-assigned from the second, both are destroyed. Two world handles were allocated and only
handle 1 was freed: the world first held by the destination is never released. -/
theorem world_move_assign_leaks :
    run HandleClass.World Heap.init
      [Op.construct true, Op.construct true, Op.move_assign 0 1, Op.destroy 1, Op.destroy 0]
      = ⟨2, [1], []⟩ ∧
    (move_assign HandleClass.World fx_two 0 1).frees = [] ∧
    (move_assign HandleClass.Node fx_two 0 1).frees = [0] := by
  decide

/-- C15, the code at the failing input: copy-assignment from a distinct valid source whose
clone fails completes without `AllocException` and leaves the destination empty, for each of
`Node`, `Statement`, `Storage`, `Uri` and `Model`; the copy constructor of `Node` raises on
the same failure. -/
theorem copy_assign_swallows_failed_clone :
    (∀ c ∈ [HandleClass.Node, HandleClass.Statement, HandleClass.Storage, HandleClass.Uri,
        HandleClass.Model],
      copy_assign c fx_two 0 1 false = some ⟨⟨2, [0], [⟨none⟩, ⟨some 1⟩]⟩, none⟩) ∧
    (copy_ctor HandleClass.Node fx_two 1 false).map Outcome.thrown
      = some (some "AllocException") := by
  decide

/-- C16: the resource-node, literal and typed-literal constructors raise `AllocException`
exactly when the engine returns no handle; otherwise the new `Node` is valid and holds the
handle the engine returned. -/
theorem node_ctor_checked (st : Heap) (ok : Bool) :
    ∀ ctor ∈ [Node.ctor_uri_string, Node.ctor_literal, Node.ctor_typed_literal],
      ((ctor st ok).thrown ≠ none ↔ (st.new_handle ok).1 = none) ∧
      ((ctor st ok).thrown ≠ none → (ctor st ok).heap.objs = st.objs) ∧
      ((st.new_handle ok).1 ≠ none →
        (ctor st ok).heap.objs = st.objs ++ [⟨(st.new_handle ok).1⟩] ∧
        ((ctor st ok).heap.obj st.objs.length).is_valid = true ∧
        ((ctor st ok).heap.obj st.objs.length).c_obj = (st.new_handle ok).1) := by
  intro ctor hctor
  simp only [List.mem_cons, List.mem_singleton, List.not_mem_nil, or_false] at hctor
  rcases hctor with rfl | rfl | rfl <;> cases ok <;>
    simp [Node.ctor_uri_string, Node.ctor_literal, Node.ctor_typed_literal, ctor_checked,
      Heap.new_handle, Heap.push, Heap.obj, CObjWrapper.is_valid, CObjWrapper.c_obj]

/-- C16, at the resource-node constructor on the initial heap with the engine returning a
handle. -/
theorem node_ctor_checked_witness :
    ((Node.ctor_uri_string Heap.init true).thrown ≠ none ↔
      (Heap.init.new_handle true).1 = none) ∧
    ((Node.ctor_uri_string Heap.init true).thrown ≠ none →
      (Node.ctor_uri_string Heap.init true).heap.objs = Heap.init.objs) ∧
    ((Heap.init.new_handle true).1 ≠ none →
      (Node.ctor_uri_string Heap.init true).heap.objs
        = Heap.init.objs ++ [⟨(Heap.init.new_handle true).1⟩] ∧
      ((Node.ctor_uri_string Heap.init true).heap.obj Heap.init.objs.length).is_valid = true ∧
      ((Node.ctor_uri_string Heap.init true).heap.obj Heap.init.objs.length).c_obj
        = (Heap.init.new_handle true).1) :=
  node_ctor_checked Heap.init true Node.ctor_uri_string (List.mem_cons_self _ _)

/-- C17, the code at the failing input: when the engine returns no handle, the blank-node
constructor (and `make_blank_node`) raises nothing and completes with an empty `Node`. -/
theorem node_ctor_blank_unchecked :
    (Node.ctor_blank Heap.init false).thrown = none ∧
    ((Node.ctor_blank Heap.init false).heap.obj 0).is_valid = false ∧
    (Node.ctor_blank Heap.init false).heap.objs.length = 1 ∧
    (Node.make_blank_node Heap.init false).thrown = none ∧
    ((Node.make_blank_node Heap.init false).heap.obj 0).is_valid = false ∧
    (Node.ctor_uri_string Heap.init false).thrown = some "librdf_new_node_from_uri_string" := by
  decide

/-- C18: `Statement(world, subject, predicate, object)` hands to the engine exactly the
handles its three parameter objects held and allocates nothing but the statement (no clone);
afterwards the three parameter objects are empty and destroying any of them frees nothing,
whether the engine returned a statement or `AllocException` was raised. -/
theorem statement_ctor_takes_ownership (st : Heap) (s p o : Nat) (ok : Bool)
    (hs : s < st.objs.length) (hp : p < st.objs.length) (ho : o < st.objs.length)
    (hsp : s ≠ p) (hso : s ≠ o) (hpo : p ≠ o) :
    (Statement.ctor_from_nodes st s p o ok).passed =
      ((st.obj s).c_obj, (st.obj p).c_obj, (st.obj o).c_obj) ∧
    ((Statement.ctor_from_nodes st s p o ok).outcome.thrown ≠ none ↔ ok = false) ∧
    (Statement.ctor_from_nodes st s p o ok).outcome.heap.next
      = st.next + (if ok then 1 else 0) ∧
    (Statement.ctor_from_nodes st s p o ok).outcome.heap.frees = st.frees ∧
    (∀ i ∈ [s, p, o],
      ((Statement.ctor_from_nodes st s p o ok).outcome.heap.obj i).is_valid = false ∧
      (dtor (Statement.ctor_from_nodes st s p o ok).outcome.heap i).frees = st.frees) := by
  have hps : ¬ p = s := fun e => hsp e.symm
  have hos : ¬ o = s := fun e => hso e.symm
  have hop : ¬ o = p := fun e => hpo e.symm
  have h1 : (st.put s ⟨none⟩).obj p = st.obj p := by
    rw [Heap.obj_put, if_neg (by simp [hsp])]
  have h2 : ((st.put s ⟨none⟩).put p ⟨none⟩).obj o = st.obj o := by
    rw [Heap.obj_put, if_neg (by simp [hpo]), Heap.obj_put, if_neg (by simp [hso])]
  have hlen : (((st.put s ⟨none⟩).put p ⟨none⟩).put o ⟨none⟩).objs.length = st.objs.length := by
    simp [Heap.put]
  have hempty : ∀ i ∈ [s, p, o],
      (((st.put s ⟨none⟩).put p ⟨none⟩).put o ⟨none⟩).obj i = ⟨none⟩ := by
    intro i hi
    simp only [List.mem_cons, List.mem_singleton, List.not_mem_nil, or_false] at hi
    rcases hi with rfl | rfl | rfl
    · rw [Heap.obj_put, if_neg (by simp [hos]), Heap.obj_put, if_neg (by simp [hps]),
        Heap.obj_put]
      simp [hs]
    · rw [Heap.obj_put, if_neg (by simp [hop]), Heap.obj_put]
      simp [Heap.put_length, hp]
    · rw [Heap.obj_put]
      simp [Heap.put_length, ho]
  have hin : ∀ i ∈ [s, p, o], i < st.objs.length := by
    intro i hi
    simp only [List.mem_cons, List.mem_singleton, List.not_mem_nil, or_false] at hi
    rcases hi with rfl | rfl | rfl <;> assumption
  have hfinal : (Statement.ctor_from_nodes st s p o ok).outcome.heap =
      if ok then
        ({ (((st.put s ⟨none⟩).put p ⟨none⟩).put o ⟨none⟩) with next := st.next + 1 } : Heap).push
          ⟨some st.next⟩
      else ((st.put s ⟨none⟩).put p ⟨none⟩).put o ⟨none⟩ := by
    cases ok <;> rfl
  have hkey : ∀ i ∈ [s, p, o],
      (Statement.ctor_from_nodes st s p o ok).outcome.heap.obj i = ⟨none⟩ := by
    intro i hi
    rw [hfinal]
    cases ok
    · exact hempty i hi
    · simp only [if_true]
      rw [Heap.push_obj_lt _ _ _ (by rw [← hlen] at hin; exact hin i hi)]
      exact hempty i hi
  have hfrees : (Statement.ctor_from_nodes st s p o ok).outcome.heap.frees = st.frees := by
    rw [hfinal]; cases ok <;> rfl
  refine ⟨?_, ?_, ?_, hfrees, ?_⟩
  · simp only [Statement.ctor_from_nodes, Heap.release, CObjWrapper.release, h1, h2]
    rfl
  · cases ok <;> simp [Statement.ctor_from_nodes, Heap.new_handle]
  · rw [hfinal]; cases ok <;> rfl
  · intro i hi
    refine ⟨by rw [hkey i hi]; rfl, ?_⟩
    rw [dtor_frees_of_empty (hkey i hi), hfrees]

/-- C18, at the three-wrapper heap, with the engine returning no statement. -/
theorem statement_ctor_takes_ownership_witness :
    (Statement.ctor_from_nodes fx_three 0 1 2 false).passed =
      ((fx_three.obj 0).c_obj, (fx_three.obj 1).c_obj, (fx_three.obj 2).c_obj) ∧
    ((Statement.ctor_from_nodes fx_three 0 1 2 false).outcome.thrown ≠ none ↔ false = false) ∧
    (Statement.ctor_from_nodes fx_three 0 1 2 false).outcome.heap.next
      = fx_three.next + (if false then 1 else 0) ∧
    (Statement.ctor_from_nodes fx_three 0 1 2 false).outcome.heap.frees = fx_three.frees ∧
    (∀ i ∈ [0, 1, 2],
      ((Statement.ctor_from_nodes fx_three 0 1 2 false).outcome.heap.obj i).is_valid = false ∧
      (dtor (Statement.ctor_from_nodes fx_three 0 1 2 false).outcome.heap i).frees
        = fx_three.frees) :=
  statement_ctor_takes_ownership fx_three 0 1 2 false (by decide) (by decide) (by decide)
    (by decide) (by decide) (by decide)

/-- C19, the code at the failing input: `Node::operator==` tests the result of the engine
primitive against 0, so a valid node compares unequal to itself and two resource nodes with
different URIs compare equal; on valid nodes `a == b` holds exactly when the nodes differ.
`Uri::operator==` tests the same kind of primitive with `!= 0`. -/
theorem node_operator_eq_inverted :
    Node.operator_eq (Node.resource "http://a") (Node.resource "http://a") = false ∧
    Node.operator_eq (Node.resource "http://a") (Node.resource "http://b") = true ∧
    librdf_node_equals (Node.resource "http://a") (Node.resource "http://a") = 1 ∧
    (∀ a b : Node, a.is_valid = true → b.is_valid = true →
      (Node.operator_eq a b = true ↔ a ≠ b)) ∧
    Uri.operator_eq (some "http://a") (some "http://a") = true ∧
    Uri.operator_eq (some "http://a") (some "http://b") = false := by
  refine ⟨by decide, by decide, by decide, ?_, by decide, by decide⟩
  intro a b ha hb
  by_cases hab : a = b <;> simp [Node.operator_eq, librdf_node_equals, ha, hb, hab]

/-- C20: `to_string()` of a valid node is the blank identifier of a blank node, the lexical
value of a literal and the URI string of a resource; over arbitrary answers of the engine the
selected component is returned when present and the empty string when it is null. -/
theorem node_to_string_projection :
    (∀ i, (Node.blank i).to_string = i) ∧
    (∀ v l d, (Node.literal v l d).to_string = v) ∧
    (∀ u, (Node.resource u).to_string = u) ∧
    (∀ n : Node, n.is_valid = true →
      n.to_string = if n.is_blank then n.get_blank_identifier
        else if n.is_literal then n.get_literal_value else n.get_uri_as_string) ∧
    (∀ v : EngineNode,
      v.to_string = or_empty (if v.is_blank then v.blank_identifier
        else if v.is_literal then v.literal_value else v.uri)) ∧
    (∀ t : String, or_empty (some t) = t) ∧ or_empty none = "" := by
  refine ⟨fun _ => rfl, fun _ _ _ => rfl, fun _ => rfl, ?_, ?_, fun _ => rfl, rfl⟩
  · intro n _
    cases n <;> rfl
  · intro v
    unfold EngineNode.to_string
    split
    · rfl
    · split <;> rfl

/-! ## Lemmas on streams -/

theorem Yields.end_iff {σ : Type} {s : LibrdfStream σ} {l : List (Option LibrdfStatement)}
    (h : Yields s l) : (librdf_stream_end s).1 ≠ 0 ↔ l = [] := by
  cases l with
  | nil => simp [h.1]
  | cons x xs => simp [h.1]

theorem Yields.advance {σ : Type} : ∀ (k : Nat) {s : LibrdfStream σ}
    {l : List (Option LibrdfStatement)}, Yields s l → k ≤ l.length →
    Yields (advance_n k s) (l.drop k) := by
  intro k
  induction k with
  | zero => intro s l h _; exact h
  | succ k ih =>
    intro s l h hk
    cases l with
    | nil => simp at hk
    | cons x xs =>
      simp only [advance_n, List.drop_succ_cons]
      exact ih h.2.2.2.2 (by simpa using hk)

theorem copy_n_loop_spec {σ : Type} (clone : LibrdfStatement → Option LibrdfStatement) :
    ∀ (todo : Nat) (s : LibrdfStream σ) (l : List (Option LibrdfStatement))
      (out : List StatementObject), Yields s l → (∀ x ∈ l, x ≠ none) →
      Stream.copy_n_loop clone todo s out =
        (advance_n (min todo l.length) s,
          out ++ (l.take (min todo l.length)).map (fun x => ⟨x.bind clone⟩)) := by
  intro todo
  induction todo with
  | zero => intro s l out _ _; simp [Stream.copy_n_loop, advance_n]
  | succ todo ih =>
    intro s l out hy hall
    cases l with
    | nil =>
      obtain ⟨h1, h2⟩ := hy
      simp [Stream.copy_n_loop, h1, h2, advance_n]
    | cons x xs =>
      obtain ⟨h1, h2, h3, h4, h5⟩ := hy
      have hx : x ≠ none := hall x (List.mem_cons_self _ _)
      obtain ⟨stmt, rfl⟩ := Option.ne_none_iff_exists'.mp hx
      have hmin : min (todo + 1) (xs.length + 1) = min todo xs.length + 1 := by omega
      simp only [Stream.copy_n_loop, h1, h2, h3, h4, ne_eq, not_true_eq_false, if_false,
        List.length_cons, hmin, advance_n, List.take_succ_cons, List.map_cons,
        Option.some_bind]
      rw [ih _ xs _ h5 (fun y hy => hall y (List.mem_cons_of_mem _ hy))]
      simp

theorem copy_spec {σ : Type} (clone : LibrdfStatement → Option LibrdfStatement) :
    ∀ (fuel : Nat) (s : LibrdfStream σ) (l : List (Option LibrdfStatement))
      (out : List StatementObject), Yields s l → (∀ x ∈ l, x ≠ none) → l.length < fuel →
      Stream.copy clone fuel s out =
        some (advance_n l.length s, out ++ l.map (fun x => ⟨x.bind clone⟩)) := by
  intro fuel
  induction fuel with
  | zero => intro s l out _ _ h; exact absurd h (Nat.not_lt_zero _)
  | succ fuel ih =>
    intro s l out hy hall hlen
    cases l with
    | nil =>
      obtain ⟨h1, h2⟩ := hy
      simp [Stream.copy, h1, h2, advance_n]
    | cons x xs =>
      obtain ⟨h1, h2, h3, h4, h5⟩ := hy
      have hx : x ≠ none := hall x (List.mem_cons_self _ _)
      obtain ⟨stmt, rfl⟩ := Option.ne_none_iff_exists'.mp hx
      simp only [Stream.copy, h1, h2, h3, h4, ne_eq, not_true_eq_false, if_false,
        List.length_cons, advance_n, List.map_cons, Option.some_bind]
      rw [ih _ xs _ h5 (fun y hy => hall y (List.mem_cons_of_mem _ hy))
        (by simpa using hlen)]
      simp

theorem adapter_at_next (c : List StatementObject) (i : Nat) (h : i < c.length) :
    (librdf_stream_next (adapter_at c i)).2 = adapter_at c (i + 1) := by
  simp [librdf_stream_next, adapter_at, StreamContext.next, Nat.ne_of_lt h]

theorem adapter_at_yields (c : List StatementObject) :
    ∀ (k i : Nat), i + k = c.length →
      Yields (adapter_at c i) ((c.drop i).map StatementObject.c_obj) := by
  intro k
  induction k with
  | zero =>
    intro i hi
    have : c.drop i = [] := List.drop_eq_nil_of_le (by omega)
    rw [this]
    have hi2 : i = c.length := by omega
    simp [Yields, librdf_stream_end, adapter_at, StreamContext.is_end, hi2]
  | succ k ih =>
    intro i hi
    have hlt : i < c.length := by omega
    rw [List.drop_eq_getElem_cons hlt]
    simp only [List.map_cons, Yields]
    refine ⟨?_, rfl, ?_, rfl, ?_⟩
    · simp [librdf_stream_end, adapter_at, StreamContext.is_end, Nat.ne_of_lt hlt]
    · simp [librdf_stream_get_object, adapter_at, StreamContext.get,
        List.getElem?_eq_getElem hlt]
    · rw [adapter_at_next c i hlt]
      exact ih (i + 1) (by omega)

theorem adapter_at_advance (c : List StatementObject) :
    ∀ (k i : Nat), i + k ≤ c.length → advance_n k (adapter_at c i) = adapter_at c (i + k) := by
  intro k
  induction k with
  | zero => intro i _; rfl
  | succ k ih =>
    intro i hi
    simp only [advance_n]
    rw [adapter_at_next c i (by omega), ih (i + 1) (by omega)]
    congr 1
    omega

theorem list_stream_yields : ∀ l : List (Option LibrdfStatement), Yields (list_stream l) l := by
  intro l
  induction l with
  | nil => simp [Yields, librdf_stream_end, list_stream]
  | cons x xs ih =>
    simp only [Yields]
    refine ⟨?_, rfl, ?_, rfl, ih⟩
    · simp [librdf_stream_end, list_stream]
    · simp [librdf_stream_get_object, list_stream]

/-! ## Results on the sequence bridge -/

/-- C21: on a stream that stands before the positions `l`, each with a current statement,
`copy_n(out, n)` appends to `out` the wrapped clones of exactly the first `min(n, k)`
statements (`k = l.length`), in order, and leaves the stream advanced by `min(n, k)` calls of
`next`, before the remaining positions; for `n >= 0` the stream is then at its end exactly when
`n >= k`; when the clone primitive succeeds and keeps the triple, the written statements have
the triples of the originals; with `n <= 0` nothing is written and the stream is untouched. -/
theorem stream_copy_n_spec {σ : Type} (clone : LibrdfStatement → Option LibrdfStatement)
    (s : LibrdfStream σ) (l : List (Option LibrdfStatement)) (out : List StatementObject)
    (count : Int) (hy : Yields s l) (hall : ∀ x ∈ l, x ≠ none) :
    (Stream.copy_n clone s out count).2 =
      out ++ (l.take (min count.toNat l.length)).map (fun x => ⟨x.bind clone⟩) ∧
    (Stream.copy_n clone s out count).1 = advance_n (min count.toNat l.length) s ∧
    Yields (Stream.copy_n clone s out count).1 (l.drop (min count.toNat l.length)) ∧
    (0 ≤ count →
      ((librdf_stream_end (Stream.copy_n clone s out count).1).1 ≠ 0 ↔
        (l.length : Int) ≤ count)) ∧
    ((∀ r, ∃ r2, clone r = some r2 ∧ r2.triple = r.triple) →
      ((Stream.copy_n clone s out count).2.drop out.length).map
          (fun w => w.c_obj.map LibrdfStatement.triple) =
        (l.take (min count.toNat l.length)).map (fun x => x.map LibrdfStatement.triple)) ∧
    (count ≤ 0 → Stream.copy_n clone s out count = (s, out)) := by
  have hspec := copy_n_loop_spec clone count.toNat s l out hy hall
  have hyield : Yields (Stream.copy_n clone s out count).1
      (l.drop (min count.toNat l.length)) := by
    unfold Stream.copy_n
    rw [hspec]
    exact Yields.advance _ hy (Nat.min_le_right _ _)
  refine ⟨?_, ?_, hyield, ?_, ?_, ?_⟩
  · unfold Stream.copy_n; rw [hspec]
  · unfold Stream.copy_n; rw [hspec]
  · intro hc
    rw [hyield.end_iff, List.drop_eq_nil_iff]
    constructor
    · intro h
      have : l.length ≤ count.toNat := by
        rcases Nat.le_total count.toNat l.length with h1 | h1
        · rw [Nat.min_eq_left h1] at h; exact h
        · exact h1
      omega
    · intro h
      have : l.length ≤ count.toNat := by omega
      rw [Nat.min_eq_right this]
  · intro hclone
    unfold Stream.copy_n
    rw [hspec]
    simp only [List.drop_left, List.map_map]
    apply List.map_congr_left
    intro x hx
    have hxl : x ∈ l := List.mem_of_mem_take hx
    obtain ⟨stmt, rfl⟩ := Option.ne_none_iff_exists'.mp (hall x hxl)
    obtain ⟨r2, h1, h2⟩ := hclone stmt
    simp [StatementObject.c_obj, h1, h2]
  · intro hc
    have h0 : count.toNat = 0 := by omega
    unfold Stream.copy_n
    rw [hspec, h0]
    simp [advance_n]

/-- C21, at an engine stream of two statements and a count of one. -/
theorem stream_copy_n_spec_witness :
    (Stream.copy_n fx_clone (list_stream [some fx_s1, some fx_s2]) [] 1).2 =
      [] ++ ([some fx_s1, some fx_s2].take
        (min (1 : Int).toNat [some fx_s1, some fx_s2].length)).map
          (fun x => ⟨x.bind fx_clone⟩) ∧
    (Stream.copy_n fx_clone (list_stream [some fx_s1, some fx_s2]) [] 1).1 =
      advance_n (min (1 : Int).toNat [some fx_s1, some fx_s2].length)
        (list_stream [some fx_s1, some fx_s2]) ∧
    Yields (Stream.copy_n fx_clone (list_stream [some fx_s1, some fx_s2]) [] 1).1
      ([some fx_s1, some fx_s2].drop (min (1 : Int).toNat [some fx_s1, some fx_s2].length)) ∧
    (0 ≤ (1 : Int) →
      ((librdf_stream_end
          (Stream.copy_n fx_clone (list_stream [some fx_s1, some fx_s2]) [] 1).1).1 ≠ 0 ↔
        ([some fx_s1, some fx_s2].length : Int) ≤ 1)) ∧
    ((∀ r, ∃ r2, fx_clone r = some r2 ∧ r2.triple = r.triple) →
      ((Stream.copy_n fx_clone (list_stream [some fx_s1, some fx_s2]) [] 1).2.drop
          ([] : List StatementObject).length).map
          (fun w => w.c_obj.map LibrdfStatement.triple) =
        ([some fx_s1, some fx_s2].take
          (min (1 : Int).toNat [some fx_s1, some fx_s2].length)).map
            (fun x => x.map LibrdfStatement.triple)) ∧
    ((1 : Int) ≤ 0 →
      Stream.copy_n fx_clone (list_stream [some fx_s1, some fx_s2]) [] 1 =
        (list_stream [some fx_s1, some fx_s2], [])) :=
  stream_copy_n_spec fx_clone (list_stream [some fx_s1, some fx_s2]) [some fx_s1, some fx_s2]
    [] 1 (list_stream_yields _) (by simp)

/-- C22: the container-backed adapter is a two-state machine over `(current, end)`: `is_end`
returns 1 exactly when `current == end`, else 0, and leaves the context as it is; `next` in
the Ready state moves `current` forward by one and returns 0; `next` in the Done state leaves
the context as it is and returns 1; from construction on, `current` never passes `end`, and
`end` and the container never change. -/
theorem stream_context_state_machine (sctx : StreamContext) :
    ((StreamContext.is_end sctx).1 = (if sctx.current = sctx.end_ then 1 else 0) ∧
      ((StreamContext.is_end sctx).1 = 1 ↔ sctx.current = sctx.end_) ∧
      (StreamContext.is_end sctx).2 = sctx) ∧
    (sctx.current ≠ sctx.end_ →
      (StreamContext.next sctx).1 = 0 ∧
      (StreamContext.next sctx).2 = { sctx with current := sctx.current + 1 }) ∧
    (sctx.current = sctx.end_ →
      (StreamContext.next sctx).1 ≠ 0 ∧ (StreamContext.next sctx).2 = sctx) ∧
    (sctx.current ≤ sctx.end_ →
      (StreamContext.next sctx).2.current ≤ (StreamContext.next sctx).2.end_) ∧
    (∀ (c : List StatementObject) (k : Nat),
      ((fun x => (StreamContext.next x).2)^[k] (StreamContext.create c)).current ≤ c.length ∧
      ((fun x => (StreamContext.next x).2)^[k] (StreamContext.create c)).end_ = c.length ∧
      ((fun x => (StreamContext.next x).2)^[k] (StreamContext.create c)).container = c) := by
  refine ⟨⟨rfl, ?_, rfl⟩, ?_, ?_, ?_, ?_⟩
  · by_cases h : sctx.current = sctx.end_ <;> simp [StreamContext.is_end, h]
  · intro h; simp [StreamContext.next, h]
  · intro h; simp [StreamContext.next, h]
  · intro h
    by_cases he : sctx.current = sctx.end_
    · simp [StreamContext.next, he]
    · simp only [StreamContext.next, he, if_false]
      omega
  · intro c k
    induction k with
    | zero => simp [StreamContext.create]
    | succ k ih =>
      rw [Function.iterate_succ_apply']
      generalize (fun x => (StreamContext.next x).2)^[k] (StreamContext.create c) = t at ih ⊢
      obtain ⟨h1, h2, h3⟩ := ih
      by_cases he : t.current = t.end_
      · simp [StreamContext.next, he, h2, h3]
      · simp only [StreamContext.next, he, if_false]
        exact ⟨by omega, h2, h3⟩

/-- C23: `get` with the object projection returns the handle held by the container element
at the current position and leaves the context, hence the element, its handle and the
position, as they are; with the context projection or any other code it returns null. -/
theorem stream_context_get_borrows (sctx : StreamContext) (flags : Int) :
    (StreamContext.get sctx flags).2 = sctx ∧
    (∀ e, sctx.container[sctx.current]? = some e →
      StreamContext.get sctx LIBRDF_STREAM_GET_METHOD_GET_OBJECT = (e.c_obj, sctx)) ∧
    (StreamContext.get sctx LIBRDF_STREAM_GET_METHOD_GET_CONTEXT).1 = none ∧
    (flags ≠ LIBRDF_STREAM_GET_METHOD_GET_OBJECT → (StreamContext.get sctx flags).1 = none) ∧
    (StreamContext.get (adapter_at fx_container 1).context
      LIBRDF_STREAM_GET_METHOD_GET_OBJECT).1 = some fx_s2 := by
  refine ⟨?_, ?_, ?_, ?_, by decide⟩
  · unfold StreamContext.get
    split
    · rfl
    · split <;> rfl
  · intro e he
    simp [StreamContext.get, he]
  · unfold StreamContext.get
    rw [if_neg (by decide)]
    split <;> rfl
  · intro h
    unfold StreamContext.get
    rw [if_neg h]
    split <;> rfl

/-- C29: for a container `c` of valid statements, `Stream::copy` driven over the adapter of
`Stream::create_from(c)` returns (any bound above `|c|` is enough) exactly `|c|` statements,
the i-th being the wrapped clone of `c[i]`, in container order, with the triples of the
originals when the clone primitive succeeds and keeps the triple; the adapter ends at position
`|c|` over the unchanged container. -/
theorem create_from_copy_roundtrip (clone : LibrdfStatement → Option LibrdfStatement)
    (c : List StatementObject) (fuel : Nat) (hvalid : ∀ e ∈ c, e.is_valid = true)
    (hfuel : c.length < fuel) :
    Stream.copy clone fuel (Stream.create_from c) [] =
      some (adapter_at c c.length, c.map (fun e => ⟨e.c_obj.bind clone⟩)) ∧
    (c.map (fun e => (⟨e.c_obj.bind clone⟩ : StatementObject))).length = c.length ∧
    (adapter_at c c.length).context.container = c ∧
    (librdf_stream_end (adapter_at c c.length)).1 ≠ 0 ∧
    ((∀ r, ∃ r2, clone r = some r2 ∧ r2.triple = r.triple) →
      (c.map (fun e => (⟨e.c_obj.bind clone⟩ : StatementObject))).map
          (fun w => w.c_obj.map LibrdfStatement.triple) =
        c.map (fun e => e.c_obj.map LibrdfStatement.triple)) := by
  have hy : Yields (adapter_at c 0) (c.map StatementObject.c_obj) := by
    have := adapter_at_yields c c.length 0 (by omega)
    simpa using this
  have hall : ∀ x ∈ c.map StatementObject.c_obj, x ≠ none := by
    intro x hx
    obtain ⟨e, he, rfl⟩ := List.mem_map.mp hx
    have := hvalid e he
    intro hn
    simp [StatementObject.is_valid, StatementObject.c_obj] at this hn
    rw [hn] at this
    simp at this
  have hcopy := copy_spec clone fuel (adapter_at c 0) (c.map StatementObject.c_obj) []
    hy hall (by simpa using hfuel)
  refine ⟨?_, by simp, rfl, ?_, ?_⟩
  · have h0 : Stream.create_from c = adapter_at c 0 := rfl
    rw [h0, hcopy, List.length_map, adapter_at_advance c c.length 0 (by omega)]
    simp
  · simp [librdf_stream_end, adapter_at, StreamContext.is_end]
  · intro hclone
    simp only [List.map_map]
    apply List.map_congr_left
    intro e he
    have hv := hvalid e he
    cases hco : e.c_obj_ with
    | none => simp [StatementObject.is_valid, hco] at hv
    | some stmt =>
      obtain ⟨r2, h1, h2⟩ := hclone stmt
      simp [StatementObject.c_obj, hco, h1, h2]

/-- C29, at the container of two valid statements. -/
theorem create_from_copy_roundtrip_witness :
    Stream.copy fx_clone 3 (Stream.create_from fx_container) [] =
      some (adapter_at fx_container fx_container.length,
        fx_container.map (fun e => ⟨e.c_obj.bind fx_clone⟩)) ∧
    (fx_container.map (fun e => (⟨e.c_obj.bind fx_clone⟩ : StatementObject))).length
      = fx_container.length ∧
    (adapter_at fx_container fx_container.length).context.container = fx_container ∧
    (librdf_stream_end (adapter_at fx_container fx_container.length)).1 ≠ 0 ∧
    ((∀ r, ∃ r2, fx_clone r = some r2 ∧ r2.triple = r.triple) →
      (fx_container.map (fun e => (⟨e.c_obj.bind fx_clone⟩ : StatementObject))).map
          (fun w => w.c_obj.map LibrdfStatement.triple) =
        fx_container.map (fun e => e.c_obj.map LibrdfStatement.triple)) :=
  create_from_copy_roundtrip fx_clone fx_container 3 (by decide) (by decide)

/-! ## Results on namespaces -/

theorem string_find_none {c : Char} : ∀ {l : List Char}, c ∉ l → string_find c l = none := by
  intro l
  induction l with
  | nil => intro _; rfl
  | cons x xs ih =>
    intro h
    have hx : ¬ x = c := fun e => h (e ▸ List.mem_cons_self _ _)
    have hxs : c ∉ xs := fun e => h (List.mem_cons_of_mem _ e)
    simp [string_find, hx, ih hxs]

theorem string_find_append {c : Char} : ∀ {a : List Char} (b : List Char), c ∉ a →
    string_find c (a ++ c :: b) = some a.length := by
  intro a
  induction a with
  | nil => intro b _; simp [string_find]
  | cons x xs ih =>
    intro b h
    have hx : ¬ x = c := fun e => h (e ▸ List.mem_cons_self _ _)
    have hxs : c ∉ xs := fun e => h (List.mem_cons_of_mem _ e)
    simp [string_find, hx, ih b hxs]

theorem qualified_data (p s : String) : (p ++ ":" ++ s).data = p.data ++ ':' :: s.data := by
  simp [String.data_append]

theorem expand_qualified (ns : Namespaces) (p s : String) (hp : ':' ∉ p.data) :
    ns.expand (p ++ ":" ++ s) =
      match ns.find p with
      | none => (p ++ ":" ++ s, ns)
      | some u => (u ++ s, ns) := by
  unfold Namespaces.expand
  rw [qualified_data, string_find_append s.data hp]
  simp only [List.take_left', List.drop_succ_cons, List.take_append_eq_append_take,
    List.take_length, Nat.sub_self, List.take_zero, List.append_nil]
  have hdrop : List.drop p.data.length (p.data ++ ':' :: s.data) = ':' :: s.data :=
    List.drop_left _ _
  cases hf : ns.find p with
  | none => rfl
  | some u =>
    simp only
    congr 2
    have : List.drop (p.data.length + 1) (p.data ++ ':' :: s.data) = s.data := by
      rw [← List.drop_drop, hdrop]
      rfl
    rw [this]

/-- C24: when `p` contains no colon and is registered to `u`, `expand(p + ":" + s)` returns
`u + s` for every `s`; with `ex` registered to `http://example.org/`, `expand("ex:Foo")`
returns `http://example.org/Foo`. -/
theorem namespaces_expand_registered (ns : Namespaces) (p u s : String)
    (hp : ':' ∉ p.data) (hreg : ns.find p = some u) :
    (ns.expand (p ++ ":" ++ s)).1 = u ++ s ∧
    (fx_ns.expand "ex:Foo").1 = "http://example.org/Foo" := by
  refine ⟨?_, by decide⟩
  rw [expand_qualified ns p s hp, hreg]

/-- C24, at the registered `ex` and a local part that itself contains a colon. -/
theorem namespaces_expand_registered_witness :
    ':' ∉ "ex".data ∧ fx_ns.find "ex" = some "http://example.org/" ∧
    (fx_ns.expand ("ex" ++ ":" ++ "a:b")).1 = "http://example.org/" ++ "a:b" ∧
    (fx_ns.expand "ex:Foo").1 = "http://example.org/Foo" :=
  ⟨by decide, by decide,
    namespaces_expand_registered fx_ns "ex" "http://example.org/" "a:b" (by decide)
      (by decide)⟩

/-- C25: `expand` returns its argument when it holds no colon, and when the text before its
first colon is not a registered key; `expand("unknown:Foo")` returns `unknown:Foo`; in every
case the prefix table is left as it was. -/
theorem namespaces_expand_unchanged (ns : Namespaces) (uri : String) :
    (':' ∉ uri.data → (ns.expand uri).1 = uri) ∧
    (∀ a b : String, ':' ∉ a.data → ns.find a = none → uri = a ++ ":" ++ b →
      (ns.expand uri).1 = uri) ∧
    (ns.expand uri).2 = ns ∧
    (fx_ns.expand "unknown:Foo").1 = "unknown:Foo" := by
  refine ⟨?_, ?_, ?_, by decide⟩
  · intro h
    simp [Namespaces.expand, string_find_none h]
  · intro a b ha hf hu
    rw [hu, expand_qualified ns a b ha, hf]
  · unfold Namespaces.expand
    split
    · rfl
    · dsimp only
      split <;> rfl

/-! ## Results on the convenience functions and the store -/

/-- C26, the code at the failing input: `parse_rdf` and `parse_rdf_from_string` ask the
engine for the parser named `turtle` whatever `format_name` is, so calls that differ only in
`format_name` (`rdfxml`, `ntriples`) request the same parser; `serialize_rdf` asks for the
serializer named `format_name`. -/
theorem parse_rdf_ignores_format_name :
    (∀ (eng : CodecEngine) (filename : String) (base_uri : Option String)
        (format_name : String),
      (parse_rdf eng filename base_uri format_name).requested = "turtle" ∧
      (parse_rdf_from_string eng filename base_uri format_name).requested = "turtle") ∧
    (∀ (eng : CodecEngine) (format_name : String),
      (serialize_rdf eng format_name).requested = format_name) ∧
    (parse_rdf fx_engine "in.rdf" none "rdfxml").requested = "turtle" ∧
    (parse_rdf fx_engine "in.rdf" none "rdfxml").requested =
      (parse_rdf fx_engine "in.rdf" none "ntriples").requested ∧
    (parse_rdf_from_string fx_engine "<a> <b> <c> ." none "ntriples").requested = "turtle" ∧
    (serialize_rdf fx_engine "rdfxml").requested = "rdfxml" := by
  refine ⟨?_, ?_, by decide, by decide, by decide, by decide⟩
  · intro eng filename base_uri format_name
    constructor
    · unfold parse_rdf
      split
      · rfl
      · split
        · split <;> rfl
        · rfl
    · unfold parse_rdf_from_string
      split
      · rfl
      · split
        · split <;> rfl
        · rfl
  · intro eng format_name
    unfold serialize_rdf
    split <;> rfl

/-- C27: two literal nodes with the same lexical value have the same visited key, whatever
their language tags and datatypes; once `add_reachable_blank_nodes` has returned from a call
on the first, a call on the second with the resulting visited set returns at once, with the
output and the visited set as they were. -/
theorem literal_key_collapses (model : Model) (fuel fuel2 : Nat) (v : String)
    (l1 d1 l2 d2 : Option String) (w w1 : Walk)
    (hfirst : add_reachable_blank_nodes model fuel (Node.literal v l1 d1) w = some w1) :
    node_id (Node.literal v l1 d1) = node_id (Node.literal v l2 d2) ∧
    node_id (Node.literal v l2 d2) = "l:" ++ v ∧
    add_reachable_blank_nodes model (fuel2 + 1) (Node.literal v l2 d2) w1 = some w1 := by
  refine ⟨rfl, rfl, ?_⟩
  have hmem : node_id (Node.literal v l2 d2) ∈ w1.added_names :=
    (add_reachable_blank_nodes_mono model fuel _ w w1 hfirst).2
  simp only [add_reachable_blank_nodes, hmem, if_true]

/-- C27, at the literals `"5"^^xsd:int` and `"5"^^xsd:string` on the 2-cycle store. -/
theorem literal_key_collapses_witness :
    node_id fx_five_int = node_id fx_five_string ∧
    node_id fx_five_string = "l:" ++ "5" ∧
    add_reachable_blank_nodes fx_cycle (0 + 1) fx_five_string ⟨["l:5"], []⟩
      = some ⟨["l:5"], []⟩ :=
  literal_key_collapses fx_cycle 1 0 "5" none (some "http://www.w3.org/2001/XMLSchema#int")
    none (some "http://www.w3.org/2001/XMLSchema#string") ⟨[], []⟩ ⟨["l:5"], []⟩ (by decide)

/-- C28, the code at the failing input: on the store `{A p B, B p A}`,
`remove_all_statements` removes the first statement only; afterwards the store still holds
`B p A`, `as_stream()` is not at its end and `has_statement(B p A)` is true. -/
theorem remove_all_statements_removes_one :
    Model.remove_all_statements fx_cycle = [⟨fx_B, fx_p, fx_A⟩] ∧
    Model.as_stream_is_end (Model.remove_all_statements fx_cycle) = false ∧
    Model.has_statement fx_cycle ⟨fx_B, fx_p, fx_A⟩ = true ∧
    Model.has_statement (Model.remove_all_statements fx_cycle) ⟨fx_B, fx_p, fx_A⟩ = true ∧
    Model.has_statement (Model.remove_all_statements fx_cycle) ⟨fx_A, fx_p, fx_B⟩ = false := by
  decide

/-! ## Consistency of the read callbacks at end-of-input -/

theorem read_bytes_at_eof_stays (st : IStream) (heof : st.ios.eof = true) (buf : List Nat)
    (size nmemb : Nat) : std_iostream_read_bytes st buf size nmemb = ⟨0, st, buf, false⟩ := by
  simp [std_iostream_read_bytes, heof]

/-- C30 (as amended): for a unit size of at least 1 and below 2^63, a requested count below
2^31 and a channel that is good, or at end-of-input with nothing left, when a call of
`std_iostream_read_bytes` that raises no fault returns fewer than the requested units, every
remaining byte has been consumed, `std_iostream_read_eof` returns 1, and every later
`std_iostream_read_bytes` returns 0 and leaves the channel as it is. -/
theorem read_callbacks_consistent_at_eof (st : IStream) (buf : List Nat) (size nmemb : Nat)
    (hs : 1 ≤ size) (hsz : size < 2 ^ 63) (hn : nmemb < 2 ^ 31) (hff : st.fault_free)
    (hno : (std_iostream_read_bytes st buf size nmemb).raised = false)
    (hlt : (std_iostream_read_bytes st buf size nmemb).ret < (nmemb : Int)) :
    (std_iostream_read_bytes st buf size nmemb).stream.data = [] ∧
    std_iostream_read_eof (std_iostream_read_bytes st buf size nmemb).stream = 1 ∧
    (∀ (buf2 : List Nat) (size2 nmemb2 : Nat),
      (std_iostream_read_bytes (std_iostream_read_bytes st buf size nmemb).stream
        buf2 size2 nmemb2).ret = 0 ∧
      (std_iostream_read_bytes (std_iostream_read_bytes st buf size nmemb).stream
        buf2 size2 nmemb2).stream = (std_iostream_read_bytes st buf size nmemb).stream ∧
      (std_iostream_read_bytes (std_iostream_read_bytes st buf size nmemb).stream
        buf2 size2 nmemb2).raised = false) := by
  have key : (std_iostream_read_bytes st buf size nmemb).stream.data = [] ∧
      (std_iostream_read_bytes st buf size nmemb).stream.ios.eof = true := by
    rcases hff with hgood | ⟨heof, hdata⟩
    · have heof : st.ios.eof = false := IosState.eof_of_good hgood
      simp only [std_iostream_read_bytes, heof, Bool.false_eq_true, if_false] at hno hlt ⊢
      obtain ⟨hret, hstream⟩ := read_loop_good size hs nmemb 0 st buf hgood hno
      rw [hret, Nat.zero_add, to_int_of_lt (by
        have : min nmemb (st.data.length / size) ≤ nmemb := Nat.min_le_left _ _
        omega)] at hlt
      have hdiv : st.data.length / size < nmemb := by omega
      have hshort : ¬ nmemb * size ≤ st.data.length := by
        intro hle
        have : nmemb ≤ st.data.length / size :=
          (Nat.le_div_iff_mul_le (Nat.lt_of_lt_of_le Nat.zero_lt_one hs)).mpr hle
        omega
      rw [hstream, if_neg hshort]
      exact ⟨if_pos hsz, by simp [IosState.setstate, IosState.eof]⟩
    · rw [read_bytes_at_eof_stays st heof]
      exact ⟨hdata, heof⟩
  refine ⟨key.1, ?_, ?_⟩
  · simp [std_iostream_read_eof, key.2]
  · intro buf2 size2 nmemb2
    rw [read_bytes_at_eof_stays _ key.2]
    exact ⟨rfl, rfl, rfl⟩

/-- C30 (as amended), at three units of four bytes requested from a channel of ten bytes. -/
theorem read_callbacks_consistent_at_eof_witness :
    (std_iostream_read_bytes fx_ten (List.replicate 12 0) 4 3).stream.data = [] ∧
    std_iostream_read_eof (std_iostream_read_bytes fx_ten (List.replicate 12 0) 4 3).stream
      = 1 ∧
    (∀ (buf2 : List Nat) (size2 nmemb2 : Nat),
      (std_iostream_read_bytes (std_iostream_read_bytes fx_ten (List.replicate 12 0) 4 3).stream
        buf2 size2 nmemb2).ret = 0 ∧
      (std_iostream_read_bytes (std_iostream_read_bytes fx_ten (List.replicate 12 0) 4 3).stream
        buf2 size2 nmemb2).stream
          = (std_iostream_read_bytes fx_ten (List.replicate 12 0) 4 3).stream ∧
      (std_iostream_read_bytes (std_iostream_read_bytes fx_ten (List.replicate 12 0) 4 3).stream
        buf2 size2 nmemb2).raised = false) :=
  read_callbacks_consistent_at_eof fx_ten (List.replicate 12 0) 4 3 (by decide) (by decide)
    (by decide) (Or.inl (by decide)) (by decide) (by decide)

/-- C30, refuted as stated, at two inputs. A request for 2^32 units of one byte on a good
channel holding exactly 2^32 bytes reads them all without a fault; the count converted to
`int` is 0, fewer than requested, and `std_iostream_read_eof` called next returns 0. A request
for one unit of 2^63 bytes on a good channel holding ten bytes passes a negative count to
`read`: no fault is raised, 0 is returned, fewer than the one unit requested, and the ten
bytes are all still unread, in a channel that reports end-of-input and yields 0 to every
later read. -/
theorem read_bytes_short_count_without_eof :
    ((std_iostream_read_bytes fx_ten [] 9223372036854775808 1).raised = false ∧
      (std_iostream_read_bytes fx_ten [] 9223372036854775808 1).ret = 0 ∧
      (std_iostream_read_bytes fx_ten [] 9223372036854775808 1).ret < ((1 : Nat) : Int) ∧
      (std_iostream_read_bytes fx_ten [] 9223372036854775808 1).stream.data = fx_ten.data ∧
      (std_iostream_read_bytes fx_ten [] 9223372036854775808 1).stream.data.length = 10 ∧
      std_iostream_read_eof (std_iostream_read_bytes fx_ten [] 9223372036854775808 1).stream
        = 1 ∧
      (std_iostream_read_bytes (std_iostream_read_bytes fx_ten [] 9223372036854775808 1).stream
        (List.replicate 10 0) 1 10).ret = 0) ∧
    (std_iostream_read_bytes ⟨List.replicate 4294967296 0, IosState.fresh⟩
      (List.replicate 4294967296 0) 1 4294967296).raised = false ∧
    (std_iostream_read_bytes ⟨List.replicate 4294967296 0, IosState.fresh⟩
      (List.replicate 4294967296 0) 1 4294967296).ret = 0 ∧
    (std_iostream_read_bytes ⟨List.replicate 4294967296 0, IosState.fresh⟩
      (List.replicate 4294967296 0) 1 4294967296).ret < ((4294967296 : Nat) : Int) ∧
    std_iostream_read_eof (std_iostream_read_bytes ⟨List.replicate 4294967296 0, IosState.fresh⟩
      (List.replicate 4294967296 0) 1 4294967296).stream = 0 := by
  obtain ⟨h1, h2, h3⟩ := read_loop_full 1 4294967296 0
    ⟨List.replicate 4294967296 0, IosState.fresh⟩ (List.replicate 4294967296 0) rfl
    (by simp only [List.length_replicate]; omega)
  have hto : to_int (0 + 4294967296) = 0 := by decide
  have heof : IosState.fresh.eof = false := rfl
  have hcall : std_iostream_read_bytes ⟨List.replicate 4294967296 0, IosState.fresh⟩
      (List.replicate 4294967296 0) 1 4294967296 =
      read_loop 1 4294967296 0 ⟨List.replicate 4294967296 0, IosState.fresh⟩
        (List.replicate 4294967296 0) := by
    simp only [std_iostream_read_bytes, heof, Bool.false_eq_true, if_false]
  refine ⟨by decide, ?_⟩
  rw [hcall, h2, h3, hto]
  refine ⟨h1, rfl, by decide, ?_⟩
  simp only [std_iostream_read_eof, heof, Bool.false_eq_true, if_false]

end Redland
